import Mathlib

/-!
# Parking management system: embedding of `Parking.cpp`

The classes `Vehicle` (`Car`, `Bike`), `ParkingSlot` (`CarSlot`, `BikeSlot`)
and `ParkingLot` are embedded as pure state-passing functions.

* A `Vehicle*` is a heap object: the record carries the object's address
  (`addr`) next to its members, and a null pointer is `none`.
* `int` and `time_t` values are `Int`. A finite `double` is a rational number:
  `double` values are carried in `ℚ`, and every `double` operation returns its
  exact result rounded by `roundDouble` (IEEE 754 round to nearest, ties to
  even, 53 bits).
* Everything written to `cout` is returned as a list of output lines.
* An access outside the `slots` array (undefined behaviour) makes an operation
  return `none`.
-/

namespace Parking

/-- The two concrete subclasses of `Vehicle`. -/
inductive VehicleKind where
  | Car
  | Bike
deriving DecidableEq, Repr

/-- A `Vehicle` object: its address on the heap, its dynamic class, and the
members `vehicleNumber`, `entryTime`, `exitTime` (the last one is indeterminate
until `setExitTime` runs). -/
structure Vehicle where
  addr : Nat
  kind : VehicleKind
  vehicleNumber : String
  entryTime : Int
  exitTime : Int
deriving DecidableEq, Repr

/-- The two concrete subclasses of `ParkingSlot`. -/
inductive SlotKind where
  | CarSlot
  | BikeSlot
deriving DecidableEq, Repr

/-- A `ParkingSlot` object: its dynamic class and the members `slotNumber`,
`isOccupied`, `vehicle` (a possibly null `Vehicle*`). -/
structure ParkingSlot where
  kind : SlotKind
  slotNumber : Int
  isOccupied : Bool
  vehicle : Option Vehicle
deriving DecidableEq, Repr

/-- One line written to `cout`: either plain text, or the line
`Total parking fee: <fee> units.` carrying the fee that is printed. -/
inductive Msg where
  | line (text : String)
  | feeLine (fee : ℚ)
deriving DecidableEq

/-- The `ParkingLot` object: the `slots` array and the members `totalSlots`,
`availableCarSlots`, `availableBikeSlots`, `waitlist` (front of the queue
first). -/
structure ParkingLot where
  slots : List ParkingSlot
  totalSlots : Int
  availableCarSlots : Int
  availableBikeSlots : Int
  waitlist : List Vehicle
deriving DecidableEq

/-! ## IEEE 754 double arithmetic -/

/-- Rounding of a rational to the nearest integer, a tie going to the even
integer. -/
def roundHalfEven (r : ℚ) : Int :=
  if r - ⌊r⌋ < 1 / 2 then ⌊r⌋
  else if 1 / 2 < r - ⌊r⌋ then ⌊r⌋ + 1
  else if ⌊r⌋ % 2 = 0 then ⌊r⌋ else ⌊r⌋ + 1

/-- The spacing of the doubles around `q`: `2 ^ (e - 52)` for
`2 ^ e ≤ |q| < 2 ^ (e + 1)`, a double having a significand of 53 bits. -/
def ulp (q : ℚ) : ℚ := (2 : ℚ) ^ (Int.log 2 |q| - 52)

/-- The `double` that an IEEE 754 operation with exact result `q` returns:
`q` rounded to the nearest multiple of `ulp q`, a tie going to the even
significand (the default rounding mode). A finite `double` is a rational
number, so the result is given as one. The exponent range is not modelled:
with `time_t` timestamps of 64 bits every result of the fee computation is `0`
or has a magnitude between `2 ^ (-1022)` and `2 ^ 1023`, the normal range of a
`double` (theorem `fee_in_range`), so no operation overflows or underflows. -/
def roundDouble (q : ℚ) : ℚ := (roundHalfEven (q / ulp q) : ℚ) * ulp q

/-- The C library function `difftime(time1, time0)`, by its specification: the
difference `time1 - time0` in seconds as a `double`, that is the exact
difference rounded once. -/
def difftime (time1 time0 : Int) : ℚ := roundDouble ((time1 - time0 : Int) : ℚ)

/-- The timestamp fits a signed 64-bit `time_t`. -/
def IsTimeT (t : Int) : Prop := -(2 : Int) ^ 63 ≤ t ∧ t < (2 : Int) ^ 63

instance (t : Int) : Decidable (IsTimeT t) := by
  unfold IsTimeT; infer_instance

/-- The value is `0` or has the magnitude of a normal `double`: rounding it
neither overflows nor produces a subnormal number. -/
def InDoubleRange (a : ℚ) : Prop :=
  a = 0 ∨ ((2 : ℚ) ^ (-1022 : ℤ) ≤ |a| ∧ |a| ≤ (2 : ℚ) ^ (1023 : ℤ))

/-! ## Vehicle -/

/-- `Car::getType` and `Bike::getType`. -/
def Vehicle.getType (v : Vehicle) : String :=
  match v.kind with
  | .Car => "Car"
  | .Bike => "Bike"

/-- `Vehicle::getVehicleNumber`. -/
def Vehicle.getVehicleNumber (v : Vehicle) : String := v.vehicleNumber

/-- `Vehicle::setExitTime`, with `now` the value `time` returns. -/
def Vehicle.setExitTime (v : Vehicle) (now : Int) : Vehicle :=
  { v with exitTime := now }

/-- `Vehicle::getParkingDuration`: `difftime(exitTime, entryTime) / 3600.0`, a
division of doubles. -/
def Vehicle.getParkingDuration (v : Vehicle) : ℚ :=
  roundDouble (difftime v.exitTime v.entryTime / 3600)

/-- `Car::calculateParkingFee` and `Bike::calculateParkingFee`: a product of
doubles. -/
def Vehicle.calculateParkingFee (v : Vehicle) : ℚ :=
  match v.kind with
  | .Car =>
    let parkingRate : ℚ := 10
    roundDouble (v.getParkingDuration * parkingRate)
  | .Bike =>
    let parkingRate : ℚ := 5
    roundDouble (v.getParkingDuration * parkingRate)

/-! ## ParkingSlot -/

/-- The constructors `CarSlot(slotNo)` and `BikeSlot(slotNo)`. -/
def ParkingSlot.create (kind : SlotKind) (slotNo : Int) : ParkingSlot :=
  { kind := kind, slotNumber := slotNo, isOccupied := false, vehicle := none }

/-- `ParkingSlot::isSlotOccupied`. -/
def ParkingSlot.isSlotOccupied (s : ParkingSlot) : Bool := s.isOccupied

/-- `ParkingSlot::getSlotNumber`. -/
def ParkingSlot.getSlotNumber (s : ParkingSlot) : Int := s.slotNumber

/-- `ParkingSlot::parkVehicle`. -/
def ParkingSlot.parkVehicle (s : ParkingSlot) (v : Vehicle) :
    ParkingSlot × List Msg :=
  ({ s with isOccupied := true, vehicle := some v },
   [Msg.line (v.getType ++ " " ++ v.getVehicleNumber ++ " parked in slot "
      ++ toString s.slotNumber)])

/-- `ParkingSlot::removeVehicle`, with `now` the time sampled by
`setExitTime`. -/
def ParkingSlot.removeVehicle (s : ParkingSlot) (now : Int) :
    ParkingSlot × List Msg :=
  match s.isOccupied, s.vehicle with
  | true, some v =>
    let v1 := v.setExitTime now
    ({ s with isOccupied := false, vehicle := none },
     [Msg.line (v1.getType ++ " " ++ v1.getVehicleNumber ++ " left slot "
        ++ toString s.slotNumber),
      Msg.feeLine v1.calculateParkingFee])
  | _, _ => (s, [Msg.line ("No vehicle in slot " ++ toString s.slotNumber)])

/-- The array access `slots[i]` for an `int` index: `none` outside the
array. -/
def slotAt (slots : List ParkingSlot) (i : Int) : Option ParkingSlot :=
  if 0 ≤ i then slots[i.toNat]? else none

/-- The initialisation loops of the constructor: `n` iterations of
`slots[i] = new K(i + 1)` starting at index `i`. -/
def initSlots (kind : SlotKind) : Int → Nat → List ParkingSlot
  | _, 0 => []
  | i, n + 1 => ParkingSlot.create kind (i + 1) :: initSlots kind (i + 1) n

/-- The largest value of `int`. -/
def INT_MAX : Int := 2147483647

/-- The constructor `ParkingLot(carSlots, bikeSlots)`. A negative count makes
the array too small for one of the loops or gives `new[]` a negative size, and
a sum above `INT_MAX` overflows: these return `none`. -/
def ParkingLot.construct (carSlots bikeSlots : Int) : Option ParkingLot :=
  if 0 ≤ carSlots ∧ 0 ≤ bikeSlots ∧ carSlots + bikeSlots ≤ INT_MAX then
    some
      { slots := initSlots .CarSlot 0 carSlots.toNat
          ++ initSlots .BikeSlot carSlots bikeSlots.toNat
        totalSlots := carSlots + bikeSlots
        availableCarSlots := carSlots
        availableBikeSlots := bikeSlots
        waitlist := [] }
  else none

/-- The search loops of `ParkingLot::parkVehicle`: at most `n` iterations of
`if (!slots[i]->isSlotOccupied()) { slots[i]->parkVehicle(v); return; }`
starting at index `i`. The result holds the array, the output, and whether the
loop executed `return`. -/
def parkLoop (v : Vehicle) (slots : List ParkingSlot) :
    Int → Nat → Option (List ParkingSlot × List Msg × Bool)
  | _, 0 => some (slots, [], false)
  | i, n + 1 =>
    match slotAt slots i with
    | none => none
    | some s =>
      if !s.isSlotOccupied then
        some (slots.set i.toNat (s.parkVehicle v).1, (s.parkVehicle v).2, true)
      else parkLoop v slots (i + 1) n

/-- `ParkingLot::parkVehicle`. When a loop ends without `return`, control
leaves the `if`/`else if` chain and the function ends. -/
def ParkingLot.parkVehicle (lot : ParkingLot) (v : Vehicle) :
    Option (ParkingLot × List Msg) :=
  if v.getType = "Car" ∧ 0 < lot.availableCarSlots then
    match parkLoop v lot.slots 0 (lot.availableCarSlots - 0).toNat with
    | none => none
    | some (slots1, out, _) => some ({ lot with slots := slots1 }, out)
  else if v.getType = "Bike" ∧ 0 < lot.availableBikeSlots then
    match parkLoop v lot.slots lot.availableCarSlots
        (lot.totalSlots - lot.availableCarSlots).toNat with
    | none => none
    | some (slots1, out, _) => some ({ lot with slots := slots1 }, out)
  else
    some ({ lot with waitlist := lot.waitlist ++ [v] },
      [Msg.line ("No available slot for " ++ v.getType
        ++ ". Adding to waitlist.")])

/-- `ParkingLot::handleWaitlist`. -/
def ParkingLot.handleWaitlist (lot : ParkingLot) :
    Option (ParkingLot × List Msg) :=
  match lot.waitlist with
  | [] => some (lot, [])
  | nextVehicle :: rest =>
    ParkingLot.parkVehicle { lot with waitlist := rest } nextVehicle

/-- `ParkingLot::removeVehicle`, with `now` the time sampled while the slot is
released. -/
def ParkingLot.removeVehicle (lot : ParkingLot) (slotNo : Int) (now : Int) :
    Option (ParkingLot × List Msg) :=
  if 0 < slotNo ∧ slotNo ≤ lot.totalSlots then
    match slotAt lot.slots (slotNo - 1) with
    | none => none
    | some s =>
      match ParkingLot.handleWaitlist
          { lot with slots := lot.slots.set (slotNo - 1).toNat (s.removeVehicle now).1 } with
      | none => none
      | some (lot2, out2) => some (lot2, (s.removeVehicle now).2 ++ out2)
  else some (lot, [Msg.line "Invalid slot number."])

/-- The slot kind in which a vehicle of the given kind is parked. -/
def slotKindFor : VehicleKind → SlotKind
  | .Car => .CarSlot
  | .Bike => .BikeSlot

/-- The number of slots the lot has for a vehicle kind: the members
`availableCarSlots` and `availableBikeSlots`, which no method changes after
the constructor. -/
def ParkingLot.slotCount (lot : ParkingLot) : VehicleKind → Int
  | .Car => lot.availableCarSlots
  | .Bike => lot.availableBikeSlots

/-- The representation invariant the constructor establishes: the counters are
non-negative and add up to `totalSlots`, the array has `totalSlots` entries,
the entry at index `i` has number `i + 1`, the car slots come first, and the
`isOccupied` flag of a slot says whether its `vehicle` pointer is set. -/
def ParkingLot.WF (lot : ParkingLot) : Prop :=
  0 ≤ lot.availableCarSlots ∧ 0 ≤ lot.availableBikeSlots ∧
  lot.totalSlots = lot.availableCarSlots + lot.availableBikeSlots ∧
  (lot.slots.length : Int) = lot.totalSlots ∧
  ∀ i (h : i < lot.slots.length),
    (lot.slots[i]).slotNumber = (i : Int) + 1 ∧
    (lot.slots[i]).kind =
      (if (i : Int) < lot.availableCarSlots then SlotKind.CarSlot else SlotKind.BikeSlot) ∧
    (lot.slots[i]).isOccupied = (lot.slots[i]).vehicle.isSome

instance (lot : ParkingLot) : Decidable lot.WF := by
  unfold ParkingLot.WF; infer_instance

/-- The lot holds the vehicle object at address `a`: some slot points to it or
it is in the waitlist. -/
def ParkingLot.Holds (lot : ParkingLot) (a : Nat) : Prop :=
  (∃ s ∈ lot.slots, s.vehicle.map Vehicle.addr = some a) ∨
  (∃ w ∈ lot.waitlist, w.addr = a)

instance (lot : ParkingLot) (a : Nat) : Decidable (lot.Holds a) := by
  unfold ParkingLot.Holds; infer_instance

/-- Every waitlisted vehicle is of a kind the lot has no slot for. -/
def ParkingLot.WaitlistInv (lot : ParkingLot) : Prop :=
  ∀ w ∈ lot.waitlist, lot.slotCount w.kind = 0

/-- The lot states the program can be in: those obtained from the constructor
by calls of `parkVehicle` and `removeVehicle`. -/
inductive Reachable : ParkingLot → Prop where
  | construct (carSlots bikeSlots : Int) (lot : ParkingLot) :
      ParkingLot.construct carSlots bikeSlots = some lot → Reachable lot
  | park (lot : ParkingLot) (v : Vehicle) (lot1 : ParkingLot) (out : List Msg) :
      Reachable lot → lot.parkVehicle v = some (lot1, out) → Reachable lot1
  | remove (lot : ParkingLot) (slotNo now : Int) (lot1 : ParkingLot) (out : List Msg) :
      Reachable lot → lot.removeVehicle slotNo now = some (lot1, out) → Reachable lot1

/-- The hourly rate of the specification: 10 units for a car, 5 for a bike. -/
def rate : VehicleKind → ℚ
  | .Car => 10
  | .Bike => 5

/-! ## Concrete vehicles and lots used in the examples -/

/-- Car `C1`, created at time 0. -/
def carC1 : Vehicle :=
  { addr := 1, kind := .Car, vehicleNumber := "C1", entryTime := 0, exitTime := 0 }

/-- Bike `B1`, created at time 0. -/
def bikeB1 : Vehicle :=
  { addr := 2, kind := .Bike, vehicleNumber := "B1", entryTime := 0, exitTime := 0 }

/-- Car `C2`, created at time 0. -/
def carC2 : Vehicle :=
  { addr := 3, kind := .Car, vehicleNumber := "C2", entryTime := 0, exitTime := 0 }

/-- Car `CarA`, created at time 0. -/
def carA : Vehicle :=
  { addr := 4, kind := .Car, vehicleNumber := "CarA", entryTime := 0, exitTime := 0 }

/-- Bike `BikeB`, created at time 0. -/
def bikeB : Vehicle :=
  { addr := 5, kind := .Bike, vehicleNumber := "BikeB", entryTime := 0, exitTime := 0 }

/-- The lot with one car slot (number 1) and one bike slot (number 2), with the
given occupants and waitlist. -/
def lot11 (car bike : Option Vehicle) (waitlist : List Vehicle) : ParkingLot :=
  { slots := [{ kind := .CarSlot, slotNumber := 1, isOccupied := car.isSome, vehicle := car },
              { kind := .BikeSlot, slotNumber := 2, isOccupied := bike.isSome, vehicle := bike }]
    totalSlots := 2
    availableCarSlots := 1
    availableBikeSlots := 1
    waitlist := waitlist }

/-- A lot with two car slots and one bike slot in which only slot 1 is
occupied. -/
def lotTwoCars : ParkingLot :=
  { slots := [{ kind := .CarSlot, slotNumber := 1, isOccupied := true, vehicle := some carC1 },
              { kind := .CarSlot, slotNumber := 2, isOccupied := false, vehicle := none },
              { kind := .BikeSlot, slotNumber := 3, isOccupied := false, vehicle := none }]
    totalSlots := 3
    availableCarSlots := 2
    availableBikeSlots := 1
    waitlist := [] }

/-- Every vehicle a slot points to is of the kind the slot is for: a car in a
`CarSlot`, a bike in a `BikeSlot`. -/
def ParkingLot.KindInv (lot : ParkingLot) : Prop :=
  ∀ s ∈ lot.slots, ∀ v, s.vehicle = some v → s.kind = slotKindFor v.kind

/-- The lot `lot1` has the layout of `lot`: the same `totalSlots`,
`availableCarSlots` and `availableBikeSlots`, and position by position the
same slot numbers and slot kinds (so also the same number of slots). -/
def ParkingLot.SameLayout (lot lot1 : ParkingLot) : Prop :=
  lot1.totalSlots = lot.totalSlots ∧
  lot1.availableCarSlots = lot.availableCarSlots ∧
  lot1.availableBikeSlots = lot.availableBikeSlots ∧
  lot1.slots.map (fun s => (s.slotNumber, s.kind))
    = lot.slots.map (fun s => (s.slotNumber, s.kind))

/-- The slot states the program can produce: those obtained from the
constructor by calls of `ParkingSlot::parkVehicle` (with a vehicle object) and
`ParkingSlot::removeVehicle`. -/
inductive SlotReachable : ParkingSlot → Prop where
  | create (kind : SlotKind) (slotNo : Int) : SlotReachable (ParkingSlot.create kind slotNo)
  | park (s : ParkingSlot) (v : Vehicle) :
      SlotReachable s → SlotReachable (s.parkVehicle v).1
  | remove (s : ParkingSlot) (now : Int) :
      SlotReachable s → SlotReachable (s.removeVehicle now).1

/-- The call `parkVehicle(v)` that took `lot` to `lot1` with output `out` either
did not invoke `ParkingSlot::parkVehicle` at all (the array is as before and no
`parked in slot` line is printed), or invoked it once, on the slot at an index
`k` inside the array that was unoccupied. -/
def ParkingLot.ParkedInFreeSlot (lot : ParkingLot) (v : Vehicle) (lot1 : ParkingLot)
    (out : List Msg) : Prop :=
  (lot1.slots = lot.slots ∧
    (out = [] ∨ out = [Msg.line ("No available slot for " ++ v.getType
      ++ ". Adding to waitlist.")])) ∨
  (∃ k, ∃ h : k < lot.slots.length,
    (k : Int) < lot.totalSlots ∧ lot.slots[k].isOccupied = false ∧
    lot1.slots = lot.slots.set k (lot.slots[k].parkVehicle v).1 ∧
    out = (lot.slots[k].parkVehicle v).2)

/-- The lot with no car slot and one bike slot (number 1), with the given
occupant and waitlist. -/
def lot01 (bike : Option Vehicle) (waitlist : List Vehicle) : ParkingLot :=
  { slots := [{ kind := .BikeSlot, slotNumber := 1, isOccupied := bike.isSome, vehicle := bike }]
    totalSlots := 1
    availableCarSlots := 0
    availableBikeSlots := 1
    waitlist := waitlist }

/-- The lot with two car slots (numbers 1 and 2) and no bike slot, with the
given occupants and waitlist. -/
def lot20 (first second : Option Vehicle) (waitlist : List Vehicle) : ParkingLot :=
  { slots := [{ kind := .CarSlot, slotNumber := 1, isOccupied := first.isSome, vehicle := first },
              { kind := .CarSlot, slotNumber := 2, isOccupied := second.isSome, vehicle := second }]
    totalSlots := 2
    availableCarSlots := 2
    availableBikeSlots := 0
    waitlist := waitlist }

/-! ## Auxiliary lemmas -/

theorem ulp_pos (q : ℚ) : 0 < ulp q := by
  unfold ulp; positivity

theorem roundHalfEven_error (r : ℚ) : |(roundHalfEven r : ℚ) - r| ≤ 1 / 2 := by
  have h1 : (⌊r⌋ : ℚ) ≤ r := Int.floor_le r
  have h2 : r < (⌊r⌋ : ℚ) + 1 := Int.lt_floor_add_one r
  unfold roundHalfEven
  rw [abs_le]
  split_ifs <;> push_cast <;> constructor <;> linarith

theorem roundHalfEven_eq_of_abs_lt (r : ℚ) (m : Int) (h : |r - m| < 1 / 2) :
    roundHalfEven r = m := by
  have h1 := roundHalfEven_error r
  have h2 : |((roundHalfEven r - m : Int) : ℚ)| < 1 := by
    have : ((roundHalfEven r - m : Int) : ℚ) = ((roundHalfEven r : ℚ) - r) + (r - m) := by
      push_cast; ring
    rw [this]
    calc |((roundHalfEven r : ℚ) - r) + (r - m)|
        ≤ |(roundHalfEven r : ℚ) - r| + |r - m| := abs_add _ _
      _ < 1 := by linarith
  have h3 : |roundHalfEven r - m| < 1 := by exact_mod_cast h2
  have h4 := abs_lt.1 h3
  omega

theorem roundHalfEven_intCast (n : Int) : roundHalfEven (n : ℚ) = n :=
  roundHalfEven_eq_of_abs_lt _ n (by simp)

theorem roundHalfEven_mono (r1 r2 : ℚ) (h : r1 ≤ r2) : roundHalfEven r1 ≤ roundHalfEven r2 := by
  by_contra hlt
  have hlt1 : roundHalfEven r2 + 1 ≤ roundHalfEven r1 := by omega
  have hq : ((roundHalfEven r2 : ℚ) + 1) ≤ (roundHalfEven r1 : ℚ) := by exact_mod_cast hlt1
  have e1 := abs_le.1 (roundHalfEven_error r1)
  have e2 := abs_le.1 (roundHalfEven_error r2)
  have heq : r1 = r2 := by linarith
  rw [heq] at hlt
  exact hlt (le_refl _)

theorem log_two_eq (q : ℚ) (k : Int) (hq : 0 < q) (h1 : (2 : ℚ) ^ k ≤ q)
    (h2 : q < (2 : ℚ) ^ (k + 1)) : Int.log 2 q = k := by
  have a : k ≤ Int.log 2 q := by
    rw [← Int.zpow_le_iff_le_log (by norm_num) hq]; simpa using h1
  have b : Int.log 2 q < k + 1 := by
    rw [← Int.lt_zpow_iff_log_lt (by norm_num) hq]; simpa using h2
  omega

theorem zpow_log_le (q : ℚ) (hq : 0 < q) : (2 : ℚ) ^ Int.log 2 q ≤ q := by
  simpa using Int.zpow_log_le_self (b := 2) (by norm_num) hq

theorem lt_zpow_log_succ (q : ℚ) : q < (2 : ℚ) ^ (Int.log 2 q + 1) := by
  simpa using Int.lt_zpow_succ_log_self (b := 2) (by norm_num) q

theorem ulp_mul_le (q : ℚ) (hq : q ≠ 0) : ulp q * 2 ^ (52 : ℕ) ≤ |q| := by
  have h := zpow_log_le |q| (abs_pos.2 hq)
  have : ulp q * 2 ^ (52 : ℕ) = (2 : ℚ) ^ Int.log 2 |q| := by
    unfold ulp
    rw [zpow_sub₀ (by norm_num : (2 : ℚ) ≠ 0)]
    have h2 : (2 : ℚ) ^ (52 : ℤ) = 2 ^ (52 : ℕ) := by norm_cast
    rw [h2]
    field_simp
  rw [this]; exact h

theorem roundDouble_zero : roundDouble 0 = 0 := by
  unfold roundDouble
  rw [zero_div]
  have : roundHalfEven (0 : ℚ) = 0 := by
    simpa using roundHalfEven_intCast 0
  rw [this]; simp

/-- A rounding changes a value by at most the relative error `2 ^ (-53)`. -/
theorem roundDouble_error (q : ℚ) : |roundDouble q - q| ≤ |q| / 2 ^ (53 : ℕ) := by
  by_cases hq : q = 0
  · subst hq; rw [roundDouble_zero]; simp
  · have hu := ulp_pos q
    have hule := ulp_mul_le q hq
    have he := roundHalfEven_error (q / ulp q)
    have hrw : roundDouble q - q = ((roundHalfEven (q / ulp q) : ℚ) - q / ulp q) * ulp q := by
      unfold roundDouble; field_simp
    rw [hrw, abs_mul, abs_of_pos hu]
    have h1 : |(roundHalfEven (q / ulp q) : ℚ) - q / ulp q| * ulp q ≤ 1 / 2 * ulp q :=
      mul_le_mul_of_nonneg_right he (le_of_lt hu)
    have h2 : 1 / 2 * ulp q ≤ |q| / 2 ^ (53 : ℕ) := by
      rw [le_div_iff₀ (by positivity)]
      have : (2 : ℚ) ^ (53 : ℕ) = 2 * 2 ^ (52 : ℕ) := by norm_num
      rw [this]; linarith
    linarith

theorem ulp_eq_of_log (q : ℚ) (k : Int) (hq : 0 < q) (h1 : (2 : ℚ) ^ k ≤ q)
    (h2 : q < (2 : ℚ) ^ (k + 1)) : ulp q = (2 : ℚ) ^ (k - 52) := by
  unfold ulp
  rw [abs_of_pos hq, log_two_eq q k hq h1 h2]

/-- Evaluation of a rounding: for `2 ^ k ≤ q < 2 ^ (k + 1)` the result is the
integer nearest to `q / 2 ^ (k - 52)` times `2 ^ (k - 52)`. -/
theorem roundDouble_eval (q : ℚ) (k m : Int) (hq : 0 < q) (h1 : (2 : ℚ) ^ k ≤ q)
    (h2 : q < (2 : ℚ) ^ (k + 1)) (hm : roundHalfEven (q / (2 : ℚ) ^ (k - 52)) = m) :
    roundDouble q = (m : ℚ) * (2 : ℚ) ^ (k - 52) := by
  unfold roundDouble
  rw [ulp_eq_of_log q k hq h1 h2, hm]

theorem zpow_two_split (k : Int) : (2 : ℚ) ^ k = 2 ^ (52 : ℕ) * (2 : ℚ) ^ (k - 52) := by
  have h2 : (2 : ℚ) ^ (52 : ℕ) = (2 : ℚ) ^ (52 : ℤ) := by norm_cast
  rw [h2, ← zpow_add₀ (by norm_num : (2 : ℚ) ≠ 0)]
  congr 1; ring

/-- A positive value and its rounding lie between the same powers of two. -/
theorem roundDouble_range (q : ℚ) (hq : 0 < q) :
    (2 : ℚ) ^ Int.log 2 q ≤ roundDouble q ∧ roundDouble q ≤ (2 : ℚ) ^ (Int.log 2 q + 1) := by
  have h1 := zpow_log_le q hq
  have h2 := lt_zpow_log_succ q
  have hu : ulp q = (2 : ℚ) ^ (Int.log 2 q - 52) := ulp_eq_of_log q _ hq h1 h2
  have hupos : (0 : ℚ) < (2 : ℚ) ^ (Int.log 2 q - 52) := by positivity
  have hlo : (2 : ℚ) ^ (52 : ℕ) ≤ q / (2 : ℚ) ^ (Int.log 2 q - 52) := by
    rw [le_div_iff₀ hupos, ← zpow_two_split]; exact h1
  have hhi : q / (2 : ℚ) ^ (Int.log 2 q - 52) ≤ (2 : ℚ) ^ (53 : ℕ) := by
    rw [div_le_iff₀ hupos]
    have : (2 : ℚ) ^ (53 : ℕ) * (2 : ℚ) ^ (Int.log 2 q - 52) = (2 : ℚ) ^ (Int.log 2 q + 1) := by
      rw [zpow_two_split (Int.log 2 q + 1)]
      have : Int.log 2 q + 1 - 52 = (Int.log 2 q - 52) + 1 := by ring
      rw [this, zpow_add₀ (by norm_num : (2 : ℚ) ≠ 0)]
      norm_num; ring
    rw [this]; exact le_of_lt h2
  have m1 := roundHalfEven_mono _ _ hlo
  have m2 := roundHalfEven_mono _ _ hhi
  have c1 : roundHalfEven ((2 : ℚ) ^ (52 : ℕ)) = 2 ^ (52 : ℕ) := by
    have := roundHalfEven_intCast (2 ^ (52 : ℕ)); push_cast at this; exact this
  have c2 : roundHalfEven ((2 : ℚ) ^ (53 : ℕ)) = 2 ^ (53 : ℕ) := by
    have := roundHalfEven_intCast (2 ^ (53 : ℕ)); push_cast at this; exact this
  rw [c1] at m1
  rw [c2] at m2
  have m1q : ((2 : ℚ) ^ (52 : ℕ)) ≤ (roundHalfEven (q / (2 : ℚ) ^ (Int.log 2 q - 52)) : ℚ) := by
    exact_mod_cast m1
  have m2q : (roundHalfEven (q / (2 : ℚ) ^ (Int.log 2 q - 52)) : ℚ) ≤ ((2 : ℚ) ^ (53 : ℕ)) := by
    exact_mod_cast m2
  unfold roundDouble
  rw [hu]
  constructor
  · rw [zpow_two_split (Int.log 2 q)]
    exact mul_le_mul_of_nonneg_right m1q (le_of_lt hupos)
  · have : (2 : ℚ) ^ (Int.log 2 q + 1) = (2 : ℚ) ^ (53 : ℕ) * (2 : ℚ) ^ (Int.log 2 q - 52) := by
      rw [zpow_two_split (Int.log 2 q + 1)]
      have : Int.log 2 q + 1 - 52 = (Int.log 2 q - 52) + 1 := by ring
      rw [this, zpow_add₀ (by norm_num : (2 : ℚ) ≠ 0)]
      norm_num; ring
    rw [this]
    exact mul_le_mul_of_nonneg_right m2q (le_of_lt hupos)

theorem roundDouble_pos (q : ℚ) (hq : 0 < q) : 0 < roundDouble q :=
  lt_of_lt_of_le (by positivity) (roundDouble_range q hq).1

theorem roundDouble_nonneg (q : ℚ) (hq : 0 ≤ q) : 0 ≤ roundDouble q := by
  rcases eq_or_lt_of_le hq with h | h
  · rw [← h, roundDouble_zero]
  · exact le_of_lt (roundDouble_pos q h)

theorem roundDouble_eq_zero_iff (q : ℚ) (hq : 0 ≤ q) : roundDouble q = 0 ↔ q = 0 := by
  constructor
  · intro h
    rcases eq_or_lt_of_le hq with h0 | h0
    · exact h0.symm
    · exact absurd h (ne_of_gt (roundDouble_pos q h0))
  · intro h; rw [h, roundDouble_zero]

/-- Rounding is monotone on the non-negative values. -/
theorem roundDouble_mono (q1 q2 : ℚ) (h0 : 0 ≤ q1) (h : q1 ≤ q2) :
    roundDouble q1 ≤ roundDouble q2 := by
  rcases eq_or_lt_of_le h0 with hz | hpos
  · rw [← hz, roundDouble_zero]; exact roundDouble_nonneg q2 (le_trans h0 h)
  · have hpos2 : 0 < q2 := lt_of_lt_of_le hpos h
    have hlog : Int.log 2 q1 ≤ Int.log 2 q2 := Int.log_mono_right hpos h
    rcases eq_or_lt_of_le hlog with he | hl
    · have hu1 : ulp q1 = (2 : ℚ) ^ (Int.log 2 q1 - 52) := by
        unfold ulp; rw [abs_of_pos hpos]
      have hu2 : ulp q2 = (2 : ℚ) ^ (Int.log 2 q1 - 52) := by
        unfold ulp; rw [abs_of_pos hpos2, he]
      have hupos : (0 : ℚ) < (2 : ℚ) ^ (Int.log 2 q1 - 52) := by positivity
      unfold roundDouble
      rw [hu1, hu2]
      apply mul_le_mul_of_nonneg_right _ (le_of_lt hupos)
      have := roundHalfEven_mono _ _ (div_le_div_of_nonneg_right h (le_of_lt hupos))
      exact_mod_cast this
    · have a := (roundDouble_range q1 hpos).2
      have b := (roundDouble_range q2 hpos2).1
      have c : (2 : ℚ) ^ (Int.log 2 q1 + 1) ≤ (2 : ℚ) ^ Int.log 2 q2 :=
        zpow_le_zpow_right₀ (by norm_num) (by omega)
      linarith

/-- Doubling commutes with rounding. -/
theorem roundDouble_two_mul (q : ℚ) : roundDouble (2 * q) = 2 * roundDouble q := by
  by_cases hq : q = 0
  · subst hq; simp [roundDouble_zero]
  · have habs : 0 < |q| := abs_pos.2 hq
    have h1 := zpow_log_le |q| habs
    have h2 := lt_zpow_log_succ |q|
    have hlog : Int.log 2 |2 * q| = Int.log 2 |q| + 1 := by
      rw [abs_mul, abs_of_pos (by norm_num : (0 : ℚ) < 2)]
      apply log_two_eq _ _ (by positivity)
      · rw [zpow_add₀ (by norm_num : (2 : ℚ) ≠ 0)]; norm_num; linarith
      · rw [zpow_add₀ (by norm_num : (2 : ℚ) ≠ 0) (Int.log 2 |q| + 1) 1]; norm_num; linarith
    have hu : ulp (2 * q) = 2 * ulp q := by
      unfold ulp
      rw [hlog]
      have : Int.log 2 |q| + 1 - 52 = (Int.log 2 |q| - 52) + 1 := by ring
      rw [this, zpow_add₀ (by norm_num : (2 : ℚ) ≠ 0)]
      norm_num; ring
    have hupos := ulp_pos q
    unfold roundDouble
    rw [hu]
    have : 2 * q / (2 * ulp q) = q / ulp q := by field_simp; ring
    rw [this]; ring

theorem roundHalfEven_tie (n : Int) (h : n % 2 = 0) :
    roundHalfEven ((n : ℚ) + 1 / 2) = n := by
  have hf : ⌊(n : ℚ) + 1 / 2⌋ = n := by
    rw [Int.floor_eq_iff]; constructor <;> norm_num
  unfold roundHalfEven
  rw [hf]
  simp [h]



theorem getType_eq_car (v : Vehicle) : v.getType = "Car" ↔ v.kind = .Car := by
  cases v with
  | mk a k n e x => cases k <;> simp [Vehicle.getType]

theorem getType_eq_bike (v : Vehicle) : v.getType = "Bike" ↔ v.kind = .Bike := by
  cases v with
  | mk a k n e x => cases k <;> simp [Vehicle.getType]

theorem slotAt_natCast (slots : List ParkingSlot) (i : Nat) :
    slotAt slots (i : Int) = slots[i]? := by
  simp [slotAt]

/-- The search loop over a range inside the array either finds every slot of
the range occupied and changes nothing, or parks in the first unoccupied slot
of the range. -/
theorem parkLoop_spec (v : Vehicle) (slots : List ParkingSlot) (n : Nat) :
    ∀ lo : Nat, lo + n ≤ slots.length →
      ((∀ i (h : i < slots.length), lo ≤ i → i < lo + n → slots[i].isOccupied = true) ∧
        parkLoop v slots (lo : Int) n = some (slots, [], false)) ∨
      (∃ k, ∃ h : k < slots.length, lo ≤ k ∧ k < lo + n ∧ slots[k].isOccupied = false ∧
        (∀ i (h : i < slots.length), lo ≤ i → i < k → slots[i].isOccupied = true) ∧
        parkLoop v slots (lo : Int) n
          = some (slots.set k (slots[k].parkVehicle v).1, (slots[k].parkVehicle v).2, true)) := by
  induction n with
  | zero => intro lo _; left; exact ⟨fun i h h1 h2 => by omega, rfl⟩
  | succ n ih =>
    intro lo hb
    have hlo : lo < slots.length := by omega
    have hat : slotAt slots (lo : Int) = some slots[lo] := by
      rw [slotAt_natCast]; exact List.getElem?_eq_getElem hlo
    cases hocc : slots[lo].isOccupied with
    | false =>
      right
      refine ⟨lo, hlo, le_refl _, by omega, hocc, fun i h h1 h2 => by omega, ?_⟩
      simp [parkLoop, hat, ParkingSlot.isSlotOccupied, hocc]
    | true =>
      have hstep : parkLoop v slots (lo : Int) (n+1)
          = parkLoop v slots ((lo + 1 : Nat) : Int) n := by
        simp [parkLoop, hat, ParkingSlot.isSlotOccupied, hocc]
      rcases ih (lo + 1) (by omega) with ⟨hall, hres⟩ | ⟨k, hk, h1, h2, h3, h4, hres⟩
      · left; refine ⟨?_, by rw [hstep, hres]⟩
        intro i h h1 h2
        by_cases hi : i = lo
        · subst hi; exact hocc
        · exact hall i h (by omega) (by omega)
      · right; refine ⟨k, hk, by omega, by omega, h3, ?_, by rw [hstep, hres]⟩
        intro i h h1' h2'
        by_cases hi : i = lo
        · subst hi; exact hocc
        · exact h4 i h (by omega) h2'


theorem wf_kind_car (lot : ParkingLot) (hwf : lot.WF) (i : Nat) (h : i < lot.slots.length) :
    lot.slots[i].kind = .CarSlot ↔ (i : Int) < lot.availableCarSlots := by
  have := (hwf.2.2.2.2 i h).2.1
  rw [this]; split <;> simp [*]

theorem wf_kind_bike (lot : ParkingLot) (hwf : lot.WF) (i : Nat) (h : i < lot.slots.length) :
    lot.slots[i].kind = .BikeSlot ↔ lot.availableCarSlots ≤ (i : Int) := by
  have := (hwf.2.2.2.2 i h).2.1
  rw [this]; split
  · simp; omega
  · simp; omega

/-- What `parkVehicle` does in a well-formed lot: it appends to the waitlist
when the lot has no slot for the kind of the vehicle, it does nothing when the
lot has such slots and all are occupied, and otherwise it parks the vehicle in
the first unoccupied slot of that kind. -/
theorem parkVehicle_wf (lot : ParkingLot) (v : Vehicle) (hwf : lot.WF) :
    (lot.slotCount v.kind = 0 ∧
      lot.parkVehicle v = some ({ lot with waitlist := lot.waitlist ++ [v] },
        [Msg.line ("No available slot for " ++ v.getType ++ ". Adding to waitlist.")])) ∨
    (0 < lot.slotCount v.kind ∧
      (∀ i (h : i < lot.slots.length), lot.slots[i].kind = slotKindFor v.kind →
        lot.slots[i].isOccupied = true) ∧
      lot.parkVehicle v = some (lot, [])) ∨
    (∃ k, ∃ h : k < lot.slots.length,
      lot.slots[k].kind = slotKindFor v.kind ∧ lot.slots[k].isOccupied = false ∧
      (∀ i (h : i < lot.slots.length), lot.slots[i].kind = slotKindFor v.kind → i < k →
        lot.slots[i].isOccupied = true) ∧
      lot.parkVehicle v = some ({ lot with slots := lot.slots.set k (lot.slots[k].parkVehicle v).1 },
        (lot.slots[k].parkVehicle v).2)) := by
  obtain ⟨hc, hb, htot, hlen, hslots⟩ := hwf
  have hwf : lot.WF := ⟨hc, hb, htot, hlen, hslots⟩
  cases hk : v.kind with
  | Car =>
    have hty : v.getType = "Car" := (getType_eq_car v).2 hk
    by_cases hpos : 0 < lot.availableCarSlots
    · right
      have hn : ((lot.availableCarSlots.toNat : Nat) : Int) = lot.availableCarSlots :=
        Int.toNat_of_nonneg hc
      rcases parkLoop_spec v lot.slots lot.availableCarSlots.toNat 0 (by omega) with
        ⟨hall, hres⟩ | ⟨k, hk', h1, h2, h3, h4, hres⟩
      · left
        refine ⟨hpos, ?_, ?_⟩
        · intro i h hkind
          exact hall i h (Nat.zero_le _) (by have := (wf_kind_car lot hwf i h).1 hkind; omega)
        · simp only [Nat.cast_zero] at hres
          simp [ParkingLot.parkVehicle, hty, hpos, hres]
      · right
        refine ⟨k, hk', (wf_kind_car lot hwf k hk').2 (by omega), h3, ?_, ?_⟩
        · intro i h _ hik; exact h4 i h (Nat.zero_le _) hik
        · simp only [Nat.cast_zero] at hres
          simp [ParkingLot.parkVehicle, hty, hpos, hres]
    · left
      refine ⟨by simp only [ParkingLot.slotCount]; omega, ?_⟩
      have hnb : v.getType ≠ "Bike" := by rw [hty]; decide
      simp [ParkingLot.parkVehicle, hpos, hnb]
  | Bike =>
    have hty : v.getType = "Bike" := (getType_eq_bike v).2 hk
    have hnc : v.getType ≠ "Car" := by rw [hty]; decide
    by_cases hpos : 0 < lot.availableBikeSlots
    · right
      have hn : ((lot.availableCarSlots.toNat : Nat) : Int) = lot.availableCarSlots :=
        Int.toNat_of_nonneg hc
      have hcnt : (lot.totalSlots - lot.availableCarSlots).toNat = lot.availableBikeSlots.toNat := by
        rw [htot]; congr 1; omega
      rcases parkLoop_spec v lot.slots lot.availableBikeSlots.toNat lot.availableCarSlots.toNat
          (by omega) with ⟨hall, hres⟩ | ⟨k, hk', h1, h2, h3, h4, hres⟩
      · left
        refine ⟨hpos, ?_, ?_⟩
        · intro i h hkind
          exact hall i h (by have := (wf_kind_bike lot hwf i h).1 hkind; omega) (by omega)
        · rw [hn] at hres
          simp [ParkingLot.parkVehicle, hty, hnc, hpos, hcnt, hres]
      · right
        refine ⟨k, hk', (wf_kind_bike lot hwf k hk').2 (by omega), h3, ?_, ?_⟩
        · intro i h hkind hik
          exact h4 i h (by have := (wf_kind_bike lot hwf i h).1 hkind; omega) hik
        · rw [hn] at hres
          simp [ParkingLot.parkVehicle, hty, hnc, hpos, hcnt, hres]
    · left
      refine ⟨by simp only [ParkingLot.slotCount]; omega, ?_⟩
      simp [ParkingLot.parkVehicle, hpos, hnc]


theorem initSlots_length (kind : SlotKind) (n : Nat) :
    ∀ i : Int, (initSlots kind i n).length = n := by
  induction n with
  | zero => intro i; rfl
  | succ n ih => intro i; simp [initSlots, ih]

theorem initSlots_getElem? (kind : SlotKind) (n : Nat) :
    ∀ (i : Int) (j : Nat), j < n →
      (initSlots kind i n)[j]? = some (ParkingSlot.create kind (i + j + 1)) := by
  induction n with
  | zero => intro i j h; omega
  | succ n ih =>
    intro i j h
    cases j with
    | zero => simp [initSlots]
    | succ j =>
      simp only [initSlots, List.getElem?_cons_succ]
      rw [ih (i + 1) j (by omega)]
      congr 2; push_cast; ring

theorem construct_wf (c b : Int) (lot : ParkingLot)
    (h : ParkingLot.construct c b = some lot) : lot.WF := by
  unfold ParkingLot.construct at h
  split at h
  · rename_i hcb
    obtain ⟨hc, hb, _⟩ := hcb
    simp only [Option.some.injEq] at h
    subst h
    refine ⟨hc, hb, rfl, ?_, ?_⟩
    · simp [initSlots_length]; omega
    · intro i hi
      simp only [List.length_append, initSlots_length] at hi
      by_cases hic : i < c.toNat
      · have hget : (initSlots .CarSlot 0 c.toNat ++ initSlots .BikeSlot c b.toNat)[i]?
            = some (ParkingSlot.create .CarSlot (0 + i + 1)) := by
          rw [List.getElem?_append_left (by simpa [initSlots_length] using hic)]
          exact initSlots_getElem? _ _ _ _ hic
        have := (List.getElem?_eq_some_iff.1 hget).2
        simp only [this]
        have : (i : Int) < c := by omega
        simp [ParkingSlot.create, this]
      · have hget : (initSlots .CarSlot 0 c.toNat ++ initSlots .BikeSlot c b.toNat)[i]?
            = some (ParkingSlot.create .BikeSlot (c + ((i - c.toNat : Nat) : Int) + 1)) := by
          rw [List.getElem?_append_right (by simpa [initSlots_length] using hic)]
          simp only [initSlots_length]
          exact initSlots_getElem? _ _ _ _ (by omega)
        have := (List.getElem?_eq_some_iff.1 hget).2
        simp only [this]
        have : ¬ (i : Int) < c := by omega
        simp [ParkingSlot.create, this]
        omega
  · simp at h

theorem wf_set (lot : ParkingLot) (hwf : lot.WF) (k : Nat) (hk : k < lot.slots.length)
    (s1 : ParkingSlot) (hnum : s1.slotNumber = lot.slots[k].slotNumber)
    (hkind : s1.kind = lot.slots[k].kind) (hocc : s1.isOccupied = s1.vehicle.isSome)
    (wl : List Vehicle) :
    ParkingLot.WF { lot with slots := lot.slots.set k s1, waitlist := wl } := by
  obtain ⟨hc, hb, htot, hlen, hslots⟩ := hwf
  refine ⟨hc, hb, htot, by simpa using hlen, ?_⟩
  intro i hi
  simp only [List.length_set] at hi
  simp only [List.getElem_set]
  by_cases hik : k = i
  · subst hik
    simp only [if_true]
    rw [hnum, hkind]
    exact ⟨(hslots k hk).1, (hslots k hk).2.1, hocc⟩
  · simp only [hik, if_false]
    exact hslots i hi

theorem parkVehicle_preserves_wf (lot : ParkingLot) (v : Vehicle) (hwf : lot.WF)
    (lot1 : ParkingLot) (out : List Msg) (h : lot.parkVehicle v = some (lot1, out)) :
    lot1.WF := by
  rcases parkVehicle_wf lot v hwf with ⟨_, hres⟩ | ⟨_, _, hres⟩ | ⟨k, hk, _, _, _, hres⟩
  · rw [hres] at h; simp only [Option.some.injEq, Prod.mk.injEq] at h
    rw [← h.1]; exact hwf
  · rw [hres] at h; simp only [Option.some.injEq, Prod.mk.injEq] at h
    rw [← h.1]; exact hwf
  · rw [hres] at h; simp only [Option.some.injEq, Prod.mk.injEq] at h
    rw [← h.1]
    exact wf_set lot hwf k hk (lot.slots[k].parkVehicle v).1 rfl rfl rfl lot.waitlist


theorem slot_removeVehicle_slotNumber (s : ParkingSlot) (now : Int) :
    (s.removeVehicle now).1.slotNumber = s.slotNumber := by
  unfold ParkingSlot.removeVehicle; split <;> rfl

theorem slot_removeVehicle_kind (s : ParkingSlot) (now : Int) :
    (s.removeVehicle now).1.kind = s.kind := by
  unfold ParkingSlot.removeVehicle; split <;> rfl

theorem slot_removeVehicle_consistent (s : ParkingSlot) (now : Int)
    (h : s.isOccupied = s.vehicle.isSome) :
    (s.removeVehicle now).1.isOccupied = (s.removeVehicle now).1.vehicle.isSome := by
  unfold ParkingSlot.removeVehicle; split
  · rfl
  · exact h

theorem slotAt_valid (lot : ParkingLot) (hwf : lot.WF) (n : Int) (h1 : 0 < n)
    (h2 : n ≤ lot.totalSlots) :
    ∃ h : (n - 1).toNat < lot.slots.length,
      slotAt lot.slots (n - 1) = some lot.slots[(n - 1).toNat] := by
  have hlen := hwf.2.2.2.1
  have hlt : (n - 1).toNat < lot.slots.length := by omega
  refine ⟨hlt, ?_⟩
  have h0 : 0 ≤ n - 1 := by omega
  simp [slotAt, h0, List.getElem?_eq_getElem hlt]

/-- In a well-formed lot a valid `removeVehicle` releases the addressed slot and
then runs `handleWaitlist` once. -/
theorem removeVehicle_valid (lot : ParkingLot) (hwf : lot.WF) (n now : Int) (h1 : 0 < n)
    (h2 : n ≤ lot.totalSlots) :
    ∃ h : (n - 1).toNat < lot.slots.length,
      lot.removeVehicle n now
        = (ParkingLot.handleWaitlist
            { lot with slots := lot.slots.set (n - 1).toNat (lot.slots[(n - 1).toNat].removeVehicle now).1 }).map
          (fun r => (r.1, (lot.slots[(n - 1).toNat].removeVehicle now).2 ++ r.2)) := by
  obtain ⟨hlt, hat⟩ := slotAt_valid lot hwf n h1 h2
  refine ⟨hlt, ?_⟩
  simp only [ParkingLot.removeVehicle, h1, h2, and_self, if_true, hat]
  cases ParkingLot.handleWaitlist
      { lot with slots := lot.slots.set (n - 1).toNat (lot.slots[(n - 1).toNat].removeVehicle now).1 } with
  | none => rfl
  | some r => rfl

theorem wf_release (lot : ParkingLot) (hwf : lot.WF) (k : Nat) (hk : k < lot.slots.length)
    (now : Int) :
    ParkingLot.WF { lot with slots := lot.slots.set k (lot.slots[k].removeVehicle now).1 } :=
  wf_set lot hwf k hk _ (slot_removeVehicle_slotNumber _ _) (slot_removeVehicle_kind _ _)
    (slot_removeVehicle_consistent _ _ (hwf.2.2.2.2 k hk).2.2) lot.waitlist

theorem parkVehicle_preserves_waitlistInv (lot : ParkingLot) (v : Vehicle) (hwf : lot.WF)
    (hinv : lot.WaitlistInv) (lot1 : ParkingLot) (out : List Msg)
    (h : lot.parkVehicle v = some (lot1, out)) : lot1.WaitlistInv := by
  rcases parkVehicle_wf lot v hwf with ⟨h0, hres⟩ | ⟨_, _, hres⟩ | ⟨k, hk, _, _, _, hres⟩
  · rw [hres] at h; simp only [Option.some.injEq, Prod.mk.injEq] at h
    rw [← h.1]
    intro w hw
    simp only [List.mem_append, List.mem_singleton] at hw
    rcases hw with hw | hw
    · exact hinv w hw
    · rw [hw]; exact h0
  · rw [hres] at h; simp only [Option.some.injEq, Prod.mk.injEq] at h
    rw [← h.1]; exact hinv
  · rw [hres] at h; simp only [Option.some.injEq, Prod.mk.injEq] at h
    rw [← h.1]; exact hinv

/-- When every waitlisted vehicle is of a kind without slots, `handleWaitlist`
moves the head of the waitlist to its tail and changes nothing else. -/
theorem handleWaitlist_inv (lot : ParkingLot) (hwf : lot.WF) (hinv : lot.WaitlistInv) :
    (lot.waitlist = [] ∧ lot.handleWaitlist = some (lot, [])) ∨
    (∃ w rest, lot.waitlist = w :: rest ∧
      lot.handleWaitlist = some ({ lot with waitlist := rest ++ [w] },
        [Msg.line ("No available slot for " ++ w.getType ++ ". Adding to waitlist.")])) := by
  cases hw : lot.waitlist with
  | nil => left; exact ⟨rfl, by simp [ParkingLot.handleWaitlist, hw]⟩
  | cons w rest =>
    right
    refine ⟨w, rest, rfl, ?_⟩
    have h0 : lot.slotCount w.kind = 0 := hinv w (by rw [hw]; exact List.mem_cons_self _ _)
    have hwf1 : ParkingLot.WF { lot with waitlist := rest } := hwf
    rcases parkVehicle_wf { lot with waitlist := rest } w hwf1 with
      ⟨_, hres⟩ | ⟨hpos, _, _⟩ | ⟨k, hk, hkind, _, _, _⟩
    · simp only [ParkingLot.handleWaitlist, hw]; exact hres
    · exfalso
      have : ParkingLot.slotCount { lot with waitlist := rest } w.kind = lot.slotCount w.kind := by
        cases w.kind <;> rfl
      omega
    · exfalso
      have hk1 : k < lot.slots.length := hk
      have hkind1 : lot.slots[k].kind = slotKindFor w.kind := hkind
      cases hwk : w.kind with
      | Car =>
        rw [hwk] at h0 hkind1
        have := (wf_kind_car lot hwf k hk1).1 hkind1
        simp only [ParkingLot.slotCount] at h0
        omega
      | Bike =>
        rw [hwk] at h0 hkind1
        have := (wf_kind_bike lot hwf k hk1).1 hkind1
        simp only [ParkingLot.slotCount] at h0
        have := hwf.2.2.2.1
        have := hwf.2.2.1
        omega

theorem removeVehicle_preserves_inv (lot : ParkingLot) (hwf : lot.WF) (hinv : lot.WaitlistInv)
    (n now : Int) (lot1 : ParkingLot) (out : List Msg)
    (h : lot.removeVehicle n now = some (lot1, out)) : lot1.WF ∧ lot1.WaitlistInv := by
  by_cases hv : 0 < n ∧ n ≤ lot.totalSlots
  · obtain ⟨hlt, heq⟩ := removeVehicle_valid lot hwf n now hv.1 hv.2
    rw [heq] at h
    have hwf1 := wf_release lot hwf (n - 1).toNat hlt now
    have hinv1 : ParkingLot.WaitlistInv { lot with slots := lot.slots.set (n - 1).toNat (lot.slots[(n - 1).toNat].removeVehicle now).1 } := hinv
    rcases handleWaitlist_inv _ hwf1 hinv1 with ⟨_, hres⟩ | ⟨w, rest, hw, hres⟩
    · rw [hres] at h; simp only [Option.map_some', Option.some.injEq, Prod.mk.injEq] at h
      rw [← h.1]; exact ⟨hwf1, hinv1⟩
    · rw [hres] at h; simp only [Option.map_some', Option.some.injEq, Prod.mk.injEq] at h
      rw [← h.1]
      refine ⟨hwf1, ?_⟩
      intro x hx
      have hw1 : lot.waitlist = w :: rest := hw
      simp only [List.mem_append, List.mem_singleton] at hx
      apply hinv x
      rw [hw1]
      rcases hx with hx | hx
      · exact List.mem_cons_of_mem _ hx
      · rw [hx]; exact List.mem_cons_self _ _
  · simp only [ParkingLot.removeVehicle, hv, if_false, Option.some.injEq, Prod.mk.injEq] at h
    rw [← h.1]; exact ⟨hwf, hinv⟩

/-- Every reachable lot is well formed and waitlists only vehicles of a kind it
has no slot for. -/
theorem reachable_inv (lot : ParkingLot) (h : Reachable lot) : lot.WF ∧ lot.WaitlistInv := by
  induction h with
  | construct c b lot hc =>
    refine ⟨construct_wf c b lot hc, ?_⟩
    unfold ParkingLot.construct at hc
    split at hc
    · simp only [Option.some.injEq] at hc
      subst hc
      intro w hw; simp at hw
    · simp at hc
  | park lot v lot1 out _ hp ih =>
    exact ⟨parkVehicle_preserves_wf lot v ih.1 lot1 out hp,
      parkVehicle_preserves_waitlistInv lot v ih.1 ih.2 lot1 out hp⟩
  | remove lot n now lot1 out _ hr ih =>
    exact removeVehicle_preserves_inv lot ih.1 ih.2 n now lot1 out hr

theorem wf_slotCount_pos (lot : ParkingLot) (hwf : lot.WF) (kind : VehicleKind) (k : Nat)
    (hk : k < lot.slots.length) (hkind : lot.slots[k].kind = slotKindFor kind) :
    0 < lot.slotCount kind := by
  have hlen := hwf.2.2.2.1
  have htot := hwf.2.2.1
  cases kind with
  | Car =>
    have := (wf_kind_car lot hwf k hk).1 hkind
    simp only [ParkingLot.slotCount]; omega
  | Bike =>
    have := (wf_kind_bike lot hwf k hk).1 hkind
    simp only [ParkingLot.slotCount]; omega

theorem not_holds_slot (lot : ParkingLot) (a : Nat) (h : ¬ lot.Holds a) (j : Nat)
    (t : ParkingSlot) (hj : lot.slots[j]? = some t) (w : Vehicle) (hw : t.vehicle = some w) :
    w.addr ≠ a := by
  intro ha
  apply h
  left
  exact ⟨t, List.getElem?_mem hj, by simp [hw, ha]⟩

/-- When `parkVehicle` has put a vehicle the lot did not hold into the slot at
index `k`, the waitlist and every other slot are as before. -/
theorem parkVehicle_fresh_placed (lot : ParkingLot) (v : Vehicle) (hwf : lot.WF)
    (hfresh : ¬ lot.Holds v.addr) (lot1 : ParkingLot) (out : List Msg)
    (hpark : lot.parkVehicle v = some (lot1, out)) (k : Nat) (t : ParkingSlot)
    (hk : lot1.slots[k]? = some t) (hv : t.vehicle = some v) :
    lot1.waitlist = lot.waitlist ∧ ∀ j, j ≠ k → lot1.slots[j]? = lot.slots[j]? := by
  rcases parkVehicle_wf lot v hwf with ⟨_, hres⟩ | ⟨_, _, hres⟩ | ⟨k1, hk1, _, _, _, hres⟩
  · rw [hres] at hpark; simp only [Option.some.injEq, Prod.mk.injEq] at hpark
    rw [← hpark.1] at hk
    exact absurd rfl (not_holds_slot lot v.addr hfresh k t hk v hv)
  · rw [hres] at hpark; simp only [Option.some.injEq, Prod.mk.injEq] at hpark
    rw [← hpark.1] at hk
    exact absurd rfl (not_holds_slot lot v.addr hfresh k t hk v hv)
  · rw [hres] at hpark; simp only [Option.some.injEq, Prod.mk.injEq] at hpark
    rw [← hpark.1] at hk ⊢
    simp only at hk ⊢
    have hkk : k1 = k := by
      by_contra hne
      rw [List.getElem?_set_ne hne] at hk
      exact absurd rfl (not_holds_slot lot v.addr hfresh k t hk v hv)
    subst hkk
    refine ⟨trivial, ?_⟩
    intro j hj
    exact List.getElem?_set_ne (Ne.symm hj)

theorem kindInv_set (lot : ParkingLot) (hinv : lot.KindInv) (k : Nat) (s1 : ParkingSlot)
    (h1 : ∀ v, s1.vehicle = some v → s1.kind = slotKindFor v.kind) (wl : List Vehicle) :
    ParkingLot.KindInv { lot with slots := lot.slots.set k s1, waitlist := wl } := by
  intro s hs v hv
  rcases List.mem_or_eq_of_mem_set hs with hmem | heq
  · exact hinv s hmem v hv
  · rw [heq] at hv ⊢; exact h1 v hv

theorem parkVehicle_preserves_kindInv (lot : ParkingLot) (v : Vehicle) (hwf : lot.WF)
    (hinv : lot.KindInv) (lot1 : ParkingLot) (out : List Msg)
    (h : lot.parkVehicle v = some (lot1, out)) : lot1.KindInv := by
  rcases parkVehicle_wf lot v hwf with ⟨_, hres⟩ | ⟨_, _, hres⟩ | ⟨k, hk, hkind, _, _, hres⟩
  · rw [hres] at h; simp only [Option.some.injEq, Prod.mk.injEq] at h
    rw [← h.1]; exact hinv
  · rw [hres] at h; simp only [Option.some.injEq, Prod.mk.injEq] at h
    rw [← h.1]; exact hinv
  · rw [hres] at h; simp only [Option.some.injEq, Prod.mk.injEq] at h
    rw [← h.1]
    apply kindInv_set lot hinv k _ _ lot.waitlist
    intro w hw
    simp only [ParkingSlot.parkVehicle, Option.some.injEq] at hw
    rw [← hw]; exact hkind

theorem slot_removeVehicle_vehicle (s : ParkingSlot) (now : Int) (v : Vehicle)
    (h : (s.removeVehicle now).1.vehicle = some v) : s.vehicle = some v := by
  unfold ParkingSlot.removeVehicle at h
  split at h
  · simp at h
  · exact h

theorem handleWaitlist_preserves_kindInv (lot : ParkingLot) (hwf : lot.WF)
    (hinv : lot.KindInv) (lot1 : ParkingLot) (out : List Msg)
    (h : lot.handleWaitlist = some (lot1, out)) : lot1.KindInv := by
  unfold ParkingLot.handleWaitlist at h
  split at h
  · simp only [Option.some.injEq, Prod.mk.injEq] at h
    rw [← h.1]; exact hinv
  · rename_i w rest _
    exact parkVehicle_preserves_kindInv { lot with waitlist := rest } w hwf hinv lot1 out h

theorem removeVehicle_preserves_kindInv (lot : ParkingLot) (hwf : lot.WF)
    (hinv : lot.KindInv) (n now : Int) (lot1 : ParkingLot) (out : List Msg)
    (h : lot.removeVehicle n now = some (lot1, out)) : lot1.KindInv := by
  by_cases hv : 0 < n ∧ n ≤ lot.totalSlots
  · obtain ⟨hlt, heq⟩ := removeVehicle_valid lot hwf n now hv.1 hv.2
    rw [heq] at h
    have hwf1 := wf_release lot hwf (n - 1).toNat hlt now
    have hinv1 : ParkingLot.KindInv { lot with slots := lot.slots.set (n - 1).toNat (lot.slots[(n - 1).toNat].removeVehicle now).1 } := by
      apply kindInv_set lot hinv _ _ _ lot.waitlist
      intro w hw
      rw [slot_removeVehicle_kind]
      exact hinv _ (List.getElem_mem _) w (slot_removeVehicle_vehicle _ _ _ hw)
    cases hh : ParkingLot.handleWaitlist { lot with slots := lot.slots.set (n - 1).toNat (lot.slots[(n - 1).toNat].removeVehicle now).1 } with
    | none => rw [hh] at h; simp at h
    | some r =>
      rw [hh] at h
      simp only [Option.map_some', Option.some.injEq, Prod.mk.injEq] at h
      rw [← h.1]
      exact handleWaitlist_preserves_kindInv _ hwf1 hinv1 r.1 r.2 hh
  · simp only [ParkingLot.removeVehicle, hv, if_false, Option.some.injEq, Prod.mk.injEq] at h
    rw [← h.1]; exact hinv

theorem construct_kindInv (c b : Int) (lot : ParkingLot)
    (h : ParkingLot.construct c b = some lot) : lot.KindInv := by
  have hwf := construct_wf c b lot h
  unfold ParkingLot.construct at h
  split at h
  · simp only [Option.some.injEq] at h
    subst h
    intro s hs v hv
    exfalso
    have hnone : ∀ (kind : SlotKind) (n : Nat) (i : Int), ∀ t ∈ initSlots kind i n,
        t.vehicle = none := by
      intro kind n
      induction n with
      | zero => intro i t ht; simp [initSlots] at ht
      | succ n ih =>
        intro i t ht
        simp only [initSlots, List.mem_cons] at ht
        rcases ht with ht | ht
        · rw [ht]; rfl
        · exact ih _ t ht
    simp only [List.mem_append] at hs
    rcases hs with hs | hs
    · rw [hnone _ _ _ s hs] at hv; simp at hv
    · rw [hnone _ _ _ s hs] at hv; simp at hv
  · simp at h

theorem reachable_kindInv (lot : ParkingLot) (h : Reachable lot) : lot.KindInv := by
  induction h with
  | construct c b lot hc => exact construct_kindInv c b lot hc
  | park lot v lot1 out hr hp ih =>
    exact parkVehicle_preserves_kindInv lot v (reachable_inv lot hr).1 ih lot1 out hp
  | remove lot n now lot1 out hr hrm ih =>
    exact removeVehicle_preserves_kindInv lot (reachable_inv lot hr).1 ih n now lot1 out hrm

theorem initSlots_vehicle_none (kind : SlotKind) (n : Nat) :
    ∀ (i : Int), ∀ t ∈ initSlots kind i n, t.isOccupied = false ∧ t.vehicle = none := by
  induction n with
  | zero => intro i t ht; simp [initSlots] at ht
  | succ n ih =>
    intro i t ht
    simp only [initSlots, List.mem_cons] at ht
    rcases ht with ht | ht
    · rw [ht]; exact ⟨rfl, rfl⟩
    · exact ih _ t ht

/-- With non-negative counts whose sum fits in an `int`, the constructor builds
a lot in which the slot at index `i` is unoccupied, has number `i + 1`, and is a
`CarSlot` exactly when `i < carSlots`. -/
theorem construct_spec (c b : Int) (hc : 0 ≤ c) (hb : 0 ≤ b) (hsum : c + b ≤ INT_MAX) :
    ∃ lot, ParkingLot.construct c b = some lot ∧
      (lot.slots.length : Int) = c + b ∧ lot.totalSlots = c + b ∧
      lot.availableCarSlots = c ∧ lot.availableBikeSlots = b ∧ lot.waitlist = [] ∧
      ∀ i (h : i < lot.slots.length),
        lot.slots[i] = { kind := if (i : Int) < c then SlotKind.CarSlot else SlotKind.BikeSlot,
                         slotNumber := (i : Int) + 1, isOccupied := false, vehicle := none } := by
  have hsome : ∃ lot, ParkingLot.construct c b = some lot := by
    simp [ParkingLot.construct, hc, hb, hsum]
  obtain ⟨lot, hlot⟩ := hsome
  have hwf := construct_wf c b lot hlot
  refine ⟨lot, hlot, ?_⟩
  have hfields : lot.totalSlots = c + b ∧ lot.availableCarSlots = c ∧
      lot.availableBikeSlots = b ∧ lot.waitlist = [] ∧
      ∀ t ∈ lot.slots, t.isOccupied = false ∧ t.vehicle = none := by
    simp only [ParkingLot.construct, hc, hb, hsum, and_self, if_true, Option.some.injEq] at hlot
    subst hlot
    refine ⟨rfl, rfl, rfl, rfl, ?_⟩
    intro t ht
    simp only [List.mem_append] at ht
    rcases ht with ht | ht
    · exact initSlots_vehicle_none _ _ _ t ht
    · exact initSlots_vehicle_none _ _ _ t ht
  obtain ⟨htot, hcar, hbike, hwl, hfree⟩ := hfields
  refine ⟨by rw [hwf.2.2.2.1, htot], htot, hcar, hbike, hwl, ?_⟩
  intro i hi
  obtain ⟨hnum, hkind, _⟩ := hwf.2.2.2.2 i hi
  obtain ⟨hocc, hveh⟩ := hfree _ (List.getElem_mem hi)
  rw [hcar] at hkind
  generalize lot.slots[i] = s at hnum hkind hocc hveh
  obtain ⟨k, n, o, ve⟩ := s
  simp only at hnum hkind hocc hveh
  subst hnum hkind hocc hveh
  rfl

theorem layout_set (slots : List ParkingSlot) (k : Nat) (hk : k < slots.length)
    (s1 : ParkingSlot) (hnum : s1.slotNumber = slots[k].slotNumber)
    (hkind : s1.kind = slots[k].kind) :
    (slots.set k s1).map (fun s => (s.slotNumber, s.kind))
      = slots.map (fun s => (s.slotNumber, s.kind)) := by
  apply List.ext_getElem?
  intro i
  simp only [List.getElem?_map, List.getElem?_set]
  split
  · rename_i hki
    subst hki
    simp [hk, hnum, hkind]
  · rfl

theorem sameLayout_refl (lot : ParkingLot) : lot.SameLayout lot := ⟨rfl, rfl, rfl, rfl⟩

theorem sameLayout_trans (a b c : ParkingLot) (h1 : a.SameLayout b) (h2 : b.SameLayout c) :
    a.SameLayout c :=
  ⟨h2.1.trans h1.1, h2.2.1.trans h1.2.1, h2.2.2.1.trans h1.2.2.1, h2.2.2.2.trans h1.2.2.2⟩

/-- In a well-formed lot `parkVehicle` returns and keeps the layout. -/
theorem parkVehicle_layout (lot : ParkingLot) (v : Vehicle) (hwf : lot.WF) :
    ∃ lot1 out, lot.parkVehicle v = some (lot1, out) ∧ lot.SameLayout lot1 := by
  rcases parkVehicle_wf lot v hwf with ⟨_, hres⟩ | ⟨_, _, hres⟩ | ⟨k, hk, _, _, _, hres⟩
  · exact ⟨_, _, hres, rfl, rfl, rfl, rfl⟩
  · exact ⟨_, _, hres, rfl, rfl, rfl, rfl⟩
  · exact ⟨_, _, hres, rfl, rfl, rfl, layout_set lot.slots k hk _ rfl rfl⟩

/-- In a well-formed lot `handleWaitlist` returns and keeps the layout. -/
theorem handleWaitlist_layout (lot : ParkingLot) (hwf : lot.WF) :
    ∃ lot1 out, lot.handleWaitlist = some (lot1, out) ∧ lot.SameLayout lot1 := by
  cases hw : lot.waitlist with
  | nil => exact ⟨lot, [], by simp [ParkingLot.handleWaitlist, hw], sameLayout_refl lot⟩
  | cons w rest =>
    have hwf2 : ParkingLot.WF { lot with waitlist := rest } := hwf
    obtain ⟨lot2, out2, hp, hlay2⟩ := parkVehicle_layout _ w hwf2
    exact ⟨lot2, out2, by simp only [ParkingLot.handleWaitlist, hw]; exact hp, hlay2⟩

/-- In a well-formed lot `removeVehicle` returns and keeps the layout. -/
theorem removeVehicle_layout (lot : ParkingLot) (hwf : lot.WF) (n now : Int) :
    ∃ lot1 out, lot.removeVehicle n now = some (lot1, out) ∧ lot.SameLayout lot1 := by
  by_cases hv : 0 < n ∧ n ≤ lot.totalSlots
  · obtain ⟨hlt, heq⟩ := removeVehicle_valid lot hwf n now hv.1 hv.2
    have hwf1 := wf_release lot hwf (n - 1).toNat hlt now
    have hlay1 : lot.SameLayout { lot with slots := lot.slots.set (n - 1).toNat (lot.slots[(n - 1).toNat].removeVehicle now).1 } :=
      ⟨rfl, rfl, rfl, layout_set lot.slots _ hlt _ (slot_removeVehicle_slotNumber _ _)
        (slot_removeVehicle_kind _ _)⟩
    obtain ⟨lot2, out2, hh, hlay2⟩ := handleWaitlist_layout _ hwf1
    refine ⟨lot2, (lot.slots[(n - 1).toNat].removeVehicle now).2 ++ out2, ?_,
      sameLayout_trans _ _ _ hlay1 hlay2⟩
    rw [heq, hh]
    rfl
  · exact ⟨lot, [Msg.line "Invalid slot number."], by simp [ParkingLot.removeVehicle, hv],
      sameLayout_refl lot⟩

/-- In a well-formed lot `parkVehicle` returns, invokes `ParkingSlot::parkVehicle`
at most once and only on an unoccupied slot inside the array, and leaves every
occupied slot as it was. -/
theorem parkVehicle_free_slot (lot : ParkingLot) (v : Vehicle) (hwf : lot.WF) :
    ∃ lot1 out, lot.parkVehicle v = some (lot1, out) ∧ lot.ParkedInFreeSlot v lot1 out ∧
      ∀ i (h : i < lot.slots.length), lot.slots[i].isOccupied = true →
        lot1.slots[i]? = some lot.slots[i] := by
  have hlen := hwf.2.2.2.1
  rcases parkVehicle_wf lot v hwf with ⟨_, hres⟩ | ⟨_, _, hres⟩ | ⟨k, hk, _, hfree, _, hres⟩
  · exact ⟨_, _, hres, Or.inl ⟨rfl, Or.inr rfl⟩, fun i h _ => List.getElem?_eq_getElem h⟩
  · exact ⟨_, _, hres, Or.inl ⟨rfl, Or.inl rfl⟩, fun i h _ => List.getElem?_eq_getElem h⟩
  · refine ⟨_, _, hres, Or.inr ⟨k, hk, by omega, hfree, rfl, rfl⟩, ?_⟩
    intro i h hocc
    have hne : k ≠ i := by
      intro hki; subst hki; rw [hfree] at hocc; exact absurd hocc (by decide)
    simp only [List.getElem?_set_ne hne]
    exact List.getElem?_eq_getElem h

theorem roundDouble_abs_le (q : ℚ) : |roundDouble q| ≤ |q| + |q| / 2 ^ (53 : ℕ) := by
  have h := roundDouble_error q
  have : |roundDouble q| ≤ |roundDouble q - q| + |q| := by
    have := abs_add (roundDouble q - q) q
    simpa using this
  linarith

theorem roundDouble_abs_ge (q : ℚ) : |q| - |q| / 2 ^ (53 : ℕ) ≤ |roundDouble q| := by
  have h := roundDouble_error q
  have : |q| ≤ |roundDouble q - q| + |roundDouble q| := by
    have := abs_add (q - roundDouble q) (roundDouble q)
    rw [abs_sub_comm] at this
    simpa using this
  linarith

/-- The three roundings of the fee computation change the exact value
`d / 3600 * r` by a relative error of at most `2 ^ (-51)`. -/
theorem fee_error (d r : ℚ) (hr : 0 < r) :
    |roundDouble (roundDouble (roundDouble d / 3600) * r) - d / 3600 * r|
      ≤ |d / 3600 * r| / 2 ^ (51 : ℕ) := by
  have e1 := roundDouble_error d
  have e2 := roundDouble_error (roundDouble d / 3600)
  have e3 := roundDouble_error (roundDouble (roundDouble d / 3600) * r)
  have b1 := roundDouble_abs_le d
  have b2 := roundDouble_abs_le (roundDouble d / 3600)
  rw [abs_mul, abs_of_pos hr] at e3
  rw [abs_div, abs_of_pos (by norm_num : (0 : ℚ) < 3600)] at e2 b2
  have hsplit : roundDouble (roundDouble (roundDouble d / 3600) * r) - d / 3600 * r
      = (roundDouble (roundDouble (roundDouble d / 3600) * r)
          - roundDouble (roundDouble d / 3600) * r)
        + (roundDouble (roundDouble d / 3600) - roundDouble d / 3600) * r
        + (roundDouble d - d) / 3600 * r := by ring
  have t1 := abs_add ((roundDouble (roundDouble (roundDouble d / 3600) * r)
          - roundDouble (roundDouble d / 3600) * r)
        + (roundDouble (roundDouble d / 3600) - roundDouble d / 3600) * r)
        ((roundDouble d - d) / 3600 * r)
  have t2 := abs_add (roundDouble (roundDouble (roundDouble d / 3600) * r)
          - roundDouble (roundDouble d / 3600) * r)
        ((roundDouble (roundDouble d / 3600) - roundDouble d / 3600) * r)
  have m2 : |(roundDouble (roundDouble d / 3600) - roundDouble d / 3600) * r|
      = |roundDouble (roundDouble d / 3600) - roundDouble d / 3600| * r := by
    rw [abs_mul, abs_of_pos hr]
  have m3 : |(roundDouble d - d) / 3600 * r| = |roundDouble d - d| / 3600 * r := by
    rw [abs_mul, abs_div, abs_of_pos hr, abs_of_pos (by norm_num : (0 : ℚ) < 3600)]
  have m4 : |d / 3600 * r| = |d| / 3600 * r := by
    rw [abs_mul, abs_div, abs_of_pos hr, abs_of_pos (by norm_num : (0 : ℚ) < 3600)]
  rw [hsplit, m4]
  rw [m3] at t1
  rw [m2] at t2
  set D := |d|
  set A1 := |roundDouble d|
  set A2 := |roundDouble (roundDouble d / 3600)|
  set E1 := |roundDouble d - d|
  set E2 := |roundDouble (roundDouble d / 3600) - roundDouble d / 3600|
  set E3 := |roundDouble (roundDouble (roundDouble d / 3600) * r)
          - roundDouble (roundDouble d / 3600) * r|
  have hD : 0 ≤ D := abs_nonneg _
  have hA1 : 0 ≤ A1 := abs_nonneg _
  have hA2 : 0 ≤ A2 := abs_nonneg _
  norm_num at e1 e2 e3 b1 b2 ⊢
  have k1 : E2 * r ≤ A1 / 3600 / 9007199254740992 * r := mul_le_mul_of_nonneg_right e2 (le_of_lt hr)
  have k2 : E1 / 3600 * r ≤ D / 9007199254740992 / 3600 * r :=
    mul_le_mul_of_nonneg_right (by linarith) (le_of_lt hr)
  have k3 : A2 * r ≤ (A1 / 3600 + A1 / 3600 / 9007199254740992) * r :=
    mul_le_mul_of_nonneg_right b2 (le_of_lt hr)
  have k4 : A1 * r ≤ (D + D / 9007199254740992) * r :=
    mul_le_mul_of_nonneg_right b1 (le_of_lt hr)
  have k5 : 0 ≤ D * r := mul_nonneg hD (le_of_lt hr)
  linarith


theorem roundDouble_le_of_nonneg (q : ℚ) (hq : 0 ≤ q) :
    roundDouble q ≤ q + q / 2 ^ (53 : ℕ) := by
  have h := abs_le.1 (roundDouble_error q)
  rw [abs_of_nonneg hq] at h
  linarith

theorem roundDouble_ge_of_nonneg (q : ℚ) (hq : 0 ≤ q) :
    q - q / 2 ^ (53 : ℕ) ≤ roundDouble q := by
  have h := abs_le.1 (roundDouble_error q)
  rw [abs_of_nonneg hq] at h
  linarith

/-- The fee computation as a function of the exact difference of the
timestamps and the rate. -/
theorem calculateParkingFee_eq (v : Vehicle) :
    v.calculateParkingFee
      = roundDouble (roundDouble (roundDouble ((v.exitTime - v.entryTime : Int) : ℚ) / 3600)
          * rate v.kind) := by
  obtain ⟨a, k, num, e, x⟩ := v
  cases k <;> rfl

theorem rate_pos (k : VehicleKind) : 0 < rate k := by
  cases k <;> simp [rate]

/-- Up to a difference of `2 ^ 48` seconds a longer stay has a strictly larger
fee. -/
theorem fee_strict (d1 d2 r : ℚ) (hr : 0 < r) (h0 : 0 ≤ d1) (hlt : d1 + 1 ≤ d2)
    (hmax : d2 ≤ 2 ^ (48 : ℕ)) :
    roundDouble (roundDouble (roundDouble d1 / 3600) * r)
      < roundDouble (roundDouble (roundDouble d2 / 3600) * r) := by
  have h02 : 0 ≤ d2 := by linarith
  have a1lo := roundDouble_nonneg d1 h0
  have a1hi := roundDouble_le_of_nonneg d1 h0
  have a2lo := roundDouble_ge_of_nonneg d2 h02
  have a2hi := roundDouble_le_of_nonneg d2 h02
  have b1n : 0 ≤ roundDouble d1 / 3600 := by positivity
  have b2n : 0 ≤ roundDouble d2 / 3600 := by
    have := roundDouble_nonneg d2 h02; positivity
  have b1lo := roundDouble_nonneg _ b1n
  have b1hi := roundDouble_le_of_nonneg _ b1n
  have b2lo := roundDouble_ge_of_nonneg _ b2n
  have b2hi := roundDouble_le_of_nonneg _ b2n
  have c1n : 0 ≤ roundDouble (roundDouble d1 / 3600) * r := mul_nonneg b1lo (le_of_lt hr)
  have c2n : 0 ≤ roundDouble (roundDouble d2 / 3600) * r :=
    mul_nonneg (roundDouble_nonneg _ b2n) (le_of_lt hr)
  have c1hi := roundDouble_le_of_nonneg _ c1n
  have c2lo := roundDouble_ge_of_nonneg _ c2n
  norm_num at a1hi a2lo a2hi b1hi b2lo b2hi c1hi c2lo hmax
  set A1 := roundDouble d1
  set A2 := roundDouble d2
  set B1 := roundDouble (A1 / 3600)
  set B2 := roundDouble (A2 / 3600)
  have gapB : B1 + 1 / 7200 ≤ B2 := by linarith
  have hB2 : B2 ≤ 562949953421312 / 3600 := by linarith
  have k1 : (B1 + 1 / 7200) * r ≤ B2 * r := mul_le_mul_of_nonneg_right gapB (le_of_lt hr)
  have k2 : B2 * r ≤ 562949953421312 / 3600 * r :=
    mul_le_mul_of_nonneg_right hB2 (le_of_lt hr)
  linarith

/-- For timestamps of a 64-bit `time_t` every value the fee computation rounds
to is `0` or a normal `double`. -/
theorem fee_in_range (d : Int) (r : ℚ) (hd : |(d : ℚ)| ≤ 2 ^ (64 : ℕ)) (hr5 : 5 ≤ r)
    (hr10 : r ≤ 10) :
    InDoubleRange (roundDouble d) ∧ InDoubleRange (roundDouble (roundDouble d / 3600)) ∧
    InDoubleRange (roundDouble (roundDouble (roundDouble d / 3600) * r)) := by
  by_cases hz : d = 0
  · subst hz
    simp [InDoubleRange, roundDouble_zero]
  · unfold InDoubleRange
    have hd1 : (1 : ℚ) ≤ |(d : ℚ)| := by
      have : 1 ≤ |d| := Int.one_le_abs hz
      exact_mod_cast this
    have hr : 0 < r := by linarith
    have a_le := roundDouble_abs_le (d : ℚ)
    have a_ge := roundDouble_abs_ge (d : ℚ)
    have b_le := roundDouble_abs_le (roundDouble d / 3600)
    have b_ge := roundDouble_abs_ge (roundDouble d / 3600)
    have c_le := roundDouble_abs_le (roundDouble (roundDouble d / 3600) * r)
    have c_ge := roundDouble_abs_ge (roundDouble (roundDouble d / 3600) * r)
    rw [abs_div, abs_of_pos (by norm_num : (0 : ℚ) < 3600)] at b_le b_ge
    rw [abs_mul, abs_of_pos hr] at c_le c_ge
    norm_num at a_le a_ge b_le b_ge c_le c_ge hd
    set D := |(d : ℚ)|
    set A := |roundDouble (d : ℚ)|
    set B := |roundDouble (roundDouble (d : ℚ) / 3600)|
    set C := |roundDouble (roundDouble (roundDouble (d : ℚ) / 3600) * r)|
    have hA1 : 1 / 2 ≤ A := by linarith
    have hA2 : A ≤ 36893488147419103232 := by linarith
    have hB1 : 1 / 14400 ≤ B := by linarith
    have hB2 : B ≤ 36893488147419103232 := by linarith
    have hBn : 0 ≤ B := by linarith
    have k1 : B * 5 ≤ B * r := mul_le_mul_of_nonneg_left hr5 hBn
    have k2 : B * r ≤ B * 10 := mul_le_mul_of_nonneg_left hr10 hBn
    have hC1 : 1 / 14400 ≤ C := by linarith
    have hC2 : C ≤ 1180591620717411303424 := by linarith
    have lo : (2 : ℚ) ^ (-1022 : ℤ) ≤ (2 : ℚ) ^ (-20 : ℤ) :=
      zpow_le_zpow_right₀ (by norm_num) (by norm_num)
    have hi : (2 : ℚ) ^ (70 : ℤ) ≤ (2 : ℚ) ^ (1023 : ℤ) :=
      zpow_le_zpow_right₀ (by norm_num) (by norm_num)
    have lo1 : (2 : ℚ) ^ (-20 : ℤ) ≤ 1 / 14400 := by norm_num
    have hi1 : (1180591620717411303424 : ℚ) ≤ (2 : ℚ) ^ (70 : ℤ) := by norm_num
    have lower : ∀ X : ℚ, 1 / 14400 ≤ X → (2 : ℚ) ^ (-1022 : ℤ) ≤ X :=
      fun X h => le_trans lo (le_trans lo1 h)
    have upper : ∀ X : ℚ, X ≤ 1180591620717411303424 → X ≤ (2 : ℚ) ^ (1023 : ℤ) :=
      fun X h => le_trans h (le_trans hi1 hi)
    exact ⟨Or.inr ⟨lower A (by linarith), upper A (by linarith)⟩,
      Or.inr ⟨lower B hB1, upper B (by linarith)⟩,
      Or.inr ⟨lower C hC1, upper C hC2⟩⟩

theorem roundDouble_one : roundDouble 1 = 1 := by
  rw [roundDouble_eval 1 0 (2 ^ (52 : ℕ)) (by norm_num) (by norm_num) (by norm_num)
    (roundHalfEven_eq_of_abs_lt _ _ (by rw [abs_lt]; constructor <;> norm_num))]
  norm_num

theorem roundDouble_two_pow_53 : roundDouble ((2 : ℚ) ^ (53 : ℕ)) = 2 ^ (53 : ℕ) := by
  rw [roundDouble_eval _ 53 (2 ^ (52 : ℕ)) (by norm_num) (by norm_num)
    (by norm_num)
    (roundHalfEven_eq_of_abs_lt _ _ (by rw [abs_lt]; constructor <;> norm_num))]
  norm_num

theorem roundDouble_two_pow_53_add_one :
    roundDouble ((2 : ℚ) ^ (53 : ℕ) + 1) = 2 ^ (53 : ℕ) := by
  rw [roundDouble_eval _ 53 (2 ^ (52 : ℕ)) (by norm_num) (by norm_num)
    (by norm_num)
    (by
      have h : ((2 : ℚ) ^ (53 : ℕ) + 1) / (2 : ℚ) ^ ((53 : ℤ) - 52)
          = (((2 ^ (52 : ℕ) : Int) : ℚ)) + 1 / 2 := by norm_num
      rw [h]
      exact roundHalfEven_tie _ (by norm_num))]
  norm_num

/-- The fee computation is monotone in a non-negative difference of the
timestamps. -/
theorem fee_mono (d1 d2 r : ℚ) (hr : 0 < r) (h0 : 0 ≤ d1) (h : d1 ≤ d2) :
    roundDouble (roundDouble (roundDouble d1 / 3600) * r)
      ≤ roundDouble (roundDouble (roundDouble d2 / 3600) * r) := by
  have a0 := roundDouble_nonneg d1 h0
  have a := roundDouble_mono d1 d2 h0 h
  have b0 : 0 ≤ roundDouble d1 / 3600 := by positivity
  have b : roundDouble d1 / 3600 ≤ roundDouble d2 / 3600 :=
    div_le_div_of_nonneg_right a (by norm_num)
  have c0 := roundDouble_nonneg _ b0
  have c := roundDouble_mono _ _ b0 b
  exact roundDouble_mono _ _ (mul_nonneg c0 (le_of_lt hr))
    (mul_le_mul_of_nonneg_right c (le_of_lt hr))

theorem fee_nonneg (d r : ℚ) (hr : 0 < r) (h0 : 0 ≤ d) :
    0 ≤ roundDouble (roundDouble (roundDouble d / 3600) * r) := by
  have a0 := roundDouble_nonneg d h0
  have b0 : 0 ≤ roundDouble d / 3600 := by positivity
  exact roundDouble_nonneg _ (mul_nonneg (roundDouble_nonneg _ b0) (le_of_lt hr))

theorem fee_eq_zero_iff (d r : ℚ) (hr : 0 < r) (h0 : 0 ≤ d) :
    roundDouble (roundDouble (roundDouble d / 3600) * r) = 0 ↔ d = 0 := by
  have a0 := roundDouble_nonneg d h0
  have b0 : 0 ≤ roundDouble d / 3600 := by positivity
  have c0 := roundDouble_nonneg _ b0
  rw [roundDouble_eq_zero_iff _ (mul_nonneg c0 (le_of_lt hr))]
  constructor
  · intro h
    rcases mul_eq_zero.1 h with h1 | h1
    · rw [roundDouble_eq_zero_iff _ b0] at h1
      have h2 : roundDouble d = 0 := by
        rcases div_eq_zero_iff.1 h1 with h3 | h3
        · exact h3
        · norm_num at h3
      exact (roundDouble_eq_zero_iff d h0).1 h2
    · exact absurd h1 (ne_of_gt hr)
  · intro h
    rw [h, roundDouble_zero, zero_div, roundDouble_zero, zero_mul]

/-- C1: in a well-formed lot with an unoccupied slot of the kind of `v`,
`parkVehicle` succeeds and makes `v` the occupant of the unoccupied slot of that
kind with the lowest slot number. -/
theorem parkVehicle_lowest_free_slot (lot : ParkingLot) (v : Vehicle) (hwf : lot.WF)
    (hfree : ∃ s ∈ lot.slots, s.kind = slotKindFor v.kind ∧ s.isOccupied = false) :
    ∃ lot1 out s, lot.parkVehicle v = some (lot1, out) ∧
      s ∈ lot.slots ∧ s.kind = slotKindFor v.kind ∧ s.isOccupied = false ∧
      (∀ t ∈ lot.slots, t.kind = slotKindFor v.kind → t.isOccupied = false →
        s.slotNumber ≤ t.slotNumber) ∧
      slotAt lot1.slots (s.slotNumber - 1)
        = some { s with isOccupied := true, vehicle := some v } := by
  obtain ⟨s0, hs0, hkind0, hfree0⟩ := hfree
  obtain ⟨j0, hj0, hget0⟩ := List.getElem_of_mem hs0
  rcases parkVehicle_wf lot v hwf with ⟨h0, _⟩ | ⟨_, hall, _⟩ | ⟨k, hk, hkind, hfreek, hmin, hres⟩
  · have := wf_slotCount_pos lot hwf v.kind j0 hj0 (by rw [hget0]; exact hkind0)
    omega
  · have := hall j0 hj0 (by rw [hget0]; exact hkind0)
    rw [hget0, hfree0] at this
    exact absurd this (by decide)
  · refine ⟨_, _, lot.slots[k], hres, List.getElem_mem _, hkind, hfreek, ?_, ?_⟩
    · intro t ht htk htf
      obtain ⟨j, hj, hget⟩ := List.getElem_of_mem ht
      have hkj : k ≤ j := by
        by_contra hlt
        have := hmin j hj (by rw [hget]; exact htk) (by omega)
        rw [hget, htf] at this
        exact absurd this (by decide)
      rw [← hget, (hwf.2.2.2.2 k hk).1, (hwf.2.2.2.2 j hj).1]
      omega
    · have hnum := (hwf.2.2.2.2 k hk).1
      have : lot.slots[k].slotNumber - 1 = (k : Int) := by omega
      rw [this, slotAt_natCast]
      simp [hk, ParkingSlot.parkVehicle]

theorem parkVehicle_lowest_free_slot_witness :
    lotTwoCars.WF ∧
    (∃ s ∈ lotTwoCars.slots, s.kind = slotKindFor carC2.kind ∧ s.isOccupied = false) ∧
    ∃ lot1 out s, lotTwoCars.parkVehicle carC2 = some (lot1, out) ∧
      s ∈ lotTwoCars.slots ∧ s.kind = slotKindFor carC2.kind ∧ s.isOccupied = false ∧
      (∀ t ∈ lotTwoCars.slots, t.kind = slotKindFor carC2.kind → t.isOccupied = false →
        s.slotNumber ≤ t.slotNumber) ∧
      slotAt lot1.slots (s.slotNumber - 1)
        = some { s with isOccupied := true, vehicle := some carC2 } :=
  ⟨by decide, by decide,
    parkVehicle_lowest_free_slot lotTwoCars carC2 (by decide) (by decide)⟩

/-- C2 (the code departs from the claim): in the lot whose only car slot is
occupied by `C1`, `parkVehicle` of the car `C2` finds no unoccupied car slot,
yet it returns the lot unchanged and prints nothing: `C2` is not appended to
the waitlist, which stays empty. -/
theorem parkVehicle_full_kind_drops_vehicle :
    (lot11 (some carC1) none []).parkVehicle carC2
      = some (lot11 (some carC1) none [], []) := by
  decide

/-- C3 (the code departs from the claim): in the lot built with one car slot
and one bike slot, `C1` is parked in slot 1 and `B1` in slot 2, but parking `C2`
leaves the waitlist empty and prints nothing, and after `removeVehicle(1)` slot 1
is unoccupied, slot 2 holds `B1` and the waitlist is empty. -/
theorem scenario_second_car_is_lost :
    ParkingLot.construct 1 1 = some (lot11 none none []) ∧
    (lot11 none none []).parkVehicle carC1
      = some (lot11 (some carC1) none [], [Msg.line "Car C1 parked in slot 1"]) ∧
    (lot11 (some carC1) none []).parkVehicle bikeB1
      = some (lot11 (some carC1) (some bikeB1) [], [Msg.line "Bike B1 parked in slot 2"]) ∧
    (lot11 (some carC1) (some bikeB1) []).parkVehicle carC2
      = some (lot11 (some carC1) (some bikeB1) [], []) ∧
    ∀ now : Int, ((lot11 (some carC1) (some bikeB1) []).removeVehicle 1 now).map Prod.fst
      = some (lot11 none (some bikeB1) []) := by
  refine ⟨by decide, by decide, by decide, by decide, ?_⟩
  intro now
  rfl

/-- C4: for a slot number below 1 or above `totalSlots`, `removeVehicle` prints
`Invalid slot number.` and returns the lot unchanged: no slot is released and
the waitlist is not touched. -/
theorem removeVehicle_invalid_slot_number (lot : ParkingLot) (n now : Int)
    (h : n < 1 ∨ lot.totalSlots < n) :
    lot.removeVehicle n now = some (lot, [Msg.line "Invalid slot number."]) := by
  have hno : ¬ (0 < n ∧ n ≤ lot.totalSlots) := by omega
  simp [ParkingLot.removeVehicle, hno]

theorem removeVehicle_invalid_slot_number_witness :
    (((0 : Int) < 1 ∨ (lot11 (some carC1) none [carA]).totalSlots < 0) ∧
      (lot11 (some carC1) none [carA]).removeVehicle 0 7
        = some (lot11 (some carC1) none [carA], [Msg.line "Invalid slot number."])) ∧
    (((3 : Int) < 1 ∨ (lot11 (some carC1) none [carA]).totalSlots < 3) ∧
      (lot11 (some carC1) none [carA]).removeVehicle 3 7
        = some (lot11 (some carC1) none [carA], [Msg.line "Invalid slot number."])) :=
  ⟨⟨by decide,
      removeVehicle_invalid_slot_number (lot11 (some carC1) none [carA]) 0 7 (by decide)⟩,
    ⟨by decide,
      removeVehicle_invalid_slot_number (lot11 (some carC1) none [carA]) 3 7 (by decide)⟩⟩

/-- C5, amended: in a lot reachable from the constructor, when `parkVehicle` has
placed a vehicle `v` that the lot did not hold before the call (as is every
newly created vehicle) in slot `s`, the following `removeVehicle(s)` succeeds,
leaves slot `s` unoccupied with a null vehicle pointer, and `v` is held by no
slot and is not in the waitlist. -/
theorem park_then_remove_frees_slot (lot : ParkingLot) (v : Vehicle) (lot1 : ParkingLot)
    (out1 : List Msg) (s now : Int) (t : ParkingSlot)
    (hreach : Reachable lot) (hfresh : ¬ lot.Holds v.addr)
    (hpark : lot.parkVehicle v = some (lot1, out1))
    (hplaced : slotAt lot1.slots (s - 1) = some t ∧ t.isOccupied = true ∧ t.vehicle = some v) :
    ∃ lot2 out2, lot1.removeVehicle s now = some (lot2, out2) ∧
      slotAt lot2.slots (s - 1) = some { t with isOccupied := false, vehicle := none } ∧
      ¬ lot2.Holds v.addr := by
  obtain ⟨hwf, _⟩ := reachable_inv lot hreach
  obtain ⟨hwf1, hinv1⟩ := reachable_inv lot1 (Reachable.park lot v lot1 out1 hreach hpark)
  obtain ⟨hat, hocc, hveh⟩ := hplaced
  have hs0 : 0 ≤ s - 1 := by
    by_contra hneg
    simp [slotAt, hneg] at hat
  have hget : lot1.slots[(s - 1).toNat]? = some t := by
    simpa [slotAt, hs0] using hat
  have hlt : (s - 1).toNat < lot1.slots.length := by
    by_contra hge
    rw [List.getElem?_eq_none (by omega)] at hget
    exact absurd hget (by simp)
  have hlen := hwf1.2.2.2.1
  have hgetE : lot1.slots[(s - 1).toNat] = t := by
    rw [List.getElem?_eq_getElem hlt] at hget
    exact Option.some.inj hget
  obtain ⟨hwl, hother⟩ := parkVehicle_fresh_placed lot v hwf hfresh lot1 out1 hpark _ t hget hveh
  obtain ⟨_, heq⟩ := removeVehicle_valid lot1 hwf1 s now (by omega) (by omega)
  rw [hgetE] at heq
  have hrel : (t.removeVehicle now).1 = { t with isOccupied := false, vehicle := none } := by
    simp [ParkingSlot.removeVehicle, hocc, hveh]
  rw [hrel] at heq
  have hwfR : ParkingLot.WF { lot1 with slots := lot1.slots.set (s - 1).toNat { t with isOccupied := false, vehicle := none } } := by
    have := wf_release lot1 hwf1 _ hlt now
    rw [hgetE, hrel] at this
    exact this
  have hinvR : ParkingLot.WaitlistInv { lot1 with slots := lot1.slots.set (s - 1).toNat { t with isOccupied := false, vehicle := none } } := hinv1
  -- no slot of the released array and no waitlist entry is `v`
  have hslots : ∀ x ∈ lot1.slots.set (s - 1).toNat { t with isOccupied := false, vehicle := none },
      x.vehicle.map Vehicle.addr ≠ some v.addr := by
    intro x hx
    obtain ⟨j, hj, hxj⟩ := List.getElem_of_mem hx
    rw [List.getElem_set] at hxj
    split at hxj
    · rw [← hxj]; simp
    · rename_i hne
      have hj1 : j < lot1.slots.length := by simpa using hj
      have h1 : lot1.slots[j]? = some x := by rw [List.getElem?_eq_getElem hj1, hxj]
      rw [hother j (Ne.symm hne)] at h1
      intro hc
      apply hfresh
      left
      exact ⟨x, List.getElem?_mem h1, hc⟩
  have hwait : ∀ x ∈ lot1.waitlist, x.addr ≠ v.addr := by
    intro x hx hc
    apply hfresh
    right
    exact ⟨x, by rw [← hwl]; exact hx, hc⟩
  have hslotAt : slotAt (lot1.slots.set (s - 1).toNat { t with isOccupied := false, vehicle := none }) (s - 1)
      = some { t with isOccupied := false, vehicle := none } := by
    rw [slotAt, if_pos hs0]
    exact List.getElem?_set_self hlt
  rcases handleWaitlist_inv _ hwfR hinvR with ⟨_, hres⟩ | ⟨w, rest, hw, hres⟩
  · rw [hres] at heq
    refine ⟨_, _, heq, hslotAt, ?_⟩
    rintro (⟨x, hx, hc⟩ | ⟨x, hx, hc⟩)
    · exact hslots x hx hc
    · exact hwait x hx hc
  · rw [hres] at heq
    refine ⟨_, _, heq, hslotAt, ?_⟩
    have hw1 : lot1.waitlist = w :: rest := hw
    rintro (⟨x, hx, hc⟩ | ⟨x, hx, hc⟩)
    · exact hslots x hx hc
    · simp only [List.mem_append, List.mem_singleton] at hx
      apply hwait x _ hc
      rw [hw1]
      rcases hx with hx | hx
      · exact List.mem_cons_of_mem _ hx
      · rw [hx]; exact List.mem_cons_self _ _

theorem park_then_remove_frees_slot_witness :
    Reachable (lot11 none none []) ∧ ¬ (lot11 none none []).Holds carC1.addr ∧
    ∃ lot2 out2, (lot11 (some carC1) none []).removeVehicle 1 3600 = some (lot2, out2) ∧
      slotAt lot2.slots (1 - 1)
        = some { kind := .CarSlot, slotNumber := 1, isOccupied := false, vehicle := none } ∧
      ¬ lot2.Holds carC1.addr :=
  ⟨Reachable.construct 1 1 _ (by decide), by decide,
    park_then_remove_frees_slot (lot11 none none []) carC1 (lot11 (some carC1) none [])
      [Msg.line "Car C1 parked in slot 1"] 1 3600
      { kind := .CarSlot, slotNumber := 1, isOccupied := true, vehicle := some carC1 }
      (Reachable.construct 1 1 _ (by decide)) (by decide) (by decide) (by decide)⟩

/-- C5 fails as stated: `parkVehicle` does not check whether the lot already
holds the vehicle it is given. In the reachable lot with two car slots whose
slot 1 holds `C1`, `parkVehicle` of the same `C1` places it in slot 2, and after
`removeVehicle(2)` slot 1 still holds `C1`. -/
theorem park_held_vehicle_again_stays_held :
    Reachable (lot20 (some carC1) none []) ∧
    (lot20 (some carC1) none []).parkVehicle carC1
      = some (lot20 (some carC1) (some carC1) [], [Msg.line "Car C1 parked in slot 2"]) ∧
    slotAt (lot20 (some carC1) (some carC1) []).slots (2 - 1)
      = some { kind := .CarSlot, slotNumber := 2, isOccupied := true, vehicle := some carC1 } ∧
    (∀ now : Int, ((lot20 (some carC1) (some carC1) []).removeVehicle 2 now).map Prod.fst
      = some (lot20 (some carC1) none [])) ∧
    (lot20 (some carC1) none []).Holds carC1.addr := by
  refine ⟨?_, by decide, by decide, fun now => rfl, by decide⟩
  exact Reachable.park (lot20 none none []) carC1 _ [Msg.line "Car C1 parked in slot 1"]
    (Reachable.construct 2 0 _ (by decide)) (by decide)

/-- C6 fails as stated: for a car with entry time 0 and exit time 1 the fee the
code computes in doubles is `6405119470038039 / 2 ^ 61` (the double
`0x1.6c16c16c16c17p-9`), not the exact rational `((1 - 0) / 3600) * 10`. -/
theorem fee_one_second_is_not_exact :
    Vehicle.calculateParkingFee (carC1.setExitTime 1) = 6405119470038039 / 2 ^ (61 : ℕ) ∧
    Vehicle.calculateParkingFee (carC1.setExitTime 1)
      ≠ ((((carC1.setExitTime 1).exitTime : ℚ) - ((carC1.setExitTime 1).entryTime : ℚ)) / 3600)
          * rate (carC1.setExitTime 1).kind := by
  have hval : Vehicle.calculateParkingFee (carC1.setExitTime 1)
      = 6405119470038039 / 2 ^ (61 : ℕ) := by
    rw [calculateParkingFee_eq]
    have h1 : (((carC1.setExitTime 1).exitTime - (carC1.setExitTime 1).entryTime : Int) : ℚ)
        = 1 := by
      simp [Vehicle.setExitTime, carC1]
    have h2 : roundDouble ((1 : ℚ) / 3600) = 5124095576030431 / 2 ^ (64 : ℕ) := by
      rw [roundDouble_eval ((1 : ℚ) / 3600) (-12) 5124095576030431 (by norm_num)
        (by norm_num) (by norm_num)
        (roundHalfEven_eq_of_abs_lt _ _ (by rw [abs_lt]; constructor <;> norm_num))]
      norm_num
    have h3 : roundDouble ((5124095576030431 : ℚ) / 2 ^ (64 : ℕ) * 10)
        = 6405119470038039 / 2 ^ (61 : ℕ) := by
      rw [roundDouble_eval _ (-9) 6405119470038039 (by norm_num) (by norm_num)
        (by norm_num)
        (roundHalfEven_eq_of_abs_lt _ _ (by rw [abs_lt]; constructor <;> norm_num))]
      norm_num
    have hk : rate (carC1.setExitTime 1).kind = 10 := rfl
    rw [h1, roundDouble_one, h2, hk, h3]
  refine ⟨hval, ?_⟩
  rw [hval]
  simp [Vehicle.setExitTime, carC1, rate]
  norm_num

/-- C6, amended: for a vehicle whose entry time `e` and exit time `x` are 64-bit
`time_t` values, `calculateParkingFee` returns `((x - e) / 3600) * rate`
evaluated in IEEE doubles (the difference, the quotient and the product each
rounded to the nearest double), with rate 10 for a car and 5 for a bike. The
result differs from the exact rational value by a relative error of at most
`2 ^ (-51)`, and no step overflows or leaves the normal range. This is the fee
`ParkingSlot::removeVehicle` prints for the released occupant, with `x` the
time sampled at the release. -/
theorem fee_is_rounded_hours_times_rate (v : Vehicle) (he : IsTimeT v.entryTime)
    (hx : IsTimeT v.exitTime) :
    v.calculateParkingFee
      = roundDouble (roundDouble (roundDouble ((v.exitTime - v.entryTime : Int) : ℚ) / 3600)
          * rate v.kind) ∧
    |v.calculateParkingFee - (((v.exitTime : ℚ) - (v.entryTime : ℚ)) / 3600) * rate v.kind|
      ≤ |(((v.exitTime : ℚ) - (v.entryTime : ℚ)) / 3600) * rate v.kind| / 2 ^ (51 : ℕ) ∧
    (InDoubleRange (difftime v.exitTime v.entryTime) ∧ InDoubleRange v.getParkingDuration ∧
      InDoubleRange v.calculateParkingFee) ∧
    ∀ (k : SlotKind) (n now : Int),
      (ParkingSlot.removeVehicle
          { kind := k, slotNumber := n, isOccupied := true, vehicle := some v } now).2
        = [Msg.line (v.getType ++ " " ++ v.vehicleNumber ++ " left slot " ++ toString n),
           Msg.feeLine (roundDouble (roundDouble
             (roundDouble ((now - v.entryTime : Int) : ℚ) / 3600) * rate v.kind))] := by
  refine ⟨calculateParkingFee_eq v, ?_, ?_, ?_⟩
  · rw [calculateParkingFee_eq, Int.cast_sub]
    exact fee_error _ _ (rate_pos v.kind)
  · have hd : |((v.exitTime - v.entryTime : Int) : ℚ)| ≤ 2 ^ (64 : ℕ) := by
      obtain ⟨e1, e2⟩ := he
      obtain ⟨x1, x2⟩ := hx
      have : |v.exitTime - v.entryTime| ≤ 2 ^ (64 : ℕ) := by
        rw [abs_le]; constructor <;> omega
      exact_mod_cast this
    have hr : 5 ≤ rate v.kind ∧ rate v.kind ≤ 10 := by
      cases v.kind <;> simp [rate] <;> norm_num
    have h := fee_in_range (v.exitTime - v.entryTime) (rate v.kind) hd hr.1 hr.2
    rw [calculateParkingFee_eq]
    exact h
  · intro k n now
    have h := calculateParkingFee_eq (v.setExitTime now)
    simp only [ParkingSlot.removeVehicle]
    rw [h]
    rfl

theorem fee_is_rounded_hours_times_rate_witness :
    (IsTimeT (carC1.setExitTime 1).entryTime ∧ IsTimeT (carC1.setExitTime 1).exitTime) ∧
    (Vehicle.calculateParkingFee (carC1.setExitTime 1)
      = roundDouble (roundDouble (roundDouble
          (((carC1.setExitTime 1).exitTime - (carC1.setExitTime 1).entryTime : Int) : ℚ) / 3600)
          * rate (carC1.setExitTime 1).kind) ∧
    |Vehicle.calculateParkingFee (carC1.setExitTime 1)
        - ((((carC1.setExitTime 1).exitTime : ℚ) - ((carC1.setExitTime 1).entryTime : ℚ)) / 3600)
          * rate (carC1.setExitTime 1).kind|
      ≤ |((((carC1.setExitTime 1).exitTime : ℚ) - ((carC1.setExitTime 1).entryTime : ℚ)) / 3600)
          * rate (carC1.setExitTime 1).kind| / 2 ^ (51 : ℕ) ∧
    (InDoubleRange (difftime (carC1.setExitTime 1).exitTime (carC1.setExitTime 1).entryTime) ∧
      InDoubleRange (carC1.setExitTime 1).getParkingDuration ∧
      InDoubleRange (carC1.setExitTime 1).calculateParkingFee) ∧
    ∀ (k : SlotKind) (n now : Int),
      (ParkingSlot.removeVehicle
          { kind := k, slotNumber := n, isOccupied := true,
            vehicle := some (carC1.setExitTime 1) } now).2
        = [Msg.line ((carC1.setExitTime 1).getType ++ " " ++ (carC1.setExitTime 1).vehicleNumber
             ++ " left slot " ++ toString n),
           Msg.feeLine (roundDouble (roundDouble
             (roundDouble ((now - (carC1.setExitTime 1).entryTime : Int) : ℚ) / 3600)
               * rate (carC1.setExitTime 1).kind))]) :=
  ⟨⟨by decide, by decide⟩,
    fee_is_rounded_hours_times_rate (carC1.setExitTime 1) (by decide) (by decide)⟩

/-- C7: in a well-formed lot with exactly one car slot, occupied by `w`, and
waitlist `[a, b]` with `a` a car, `removeVehicle(1)` releases `w` (printing its
fee), takes `a` from the waitlist and parks it in that car slot, and leaves the
waitlist equal to `[b]`. -/
theorem removeVehicle_promotes_waiting_car (lot : ParkingLot) (hwf : lot.WF)
    (hone : lot.availableCarSlots = 1) (s0 : ParkingSlot) (w : Vehicle)
    (hs0 : slotAt lot.slots 0 = some s0) (hocc : s0.isOccupied = true)
    (hveh : s0.vehicle = some w) (a b : Vehicle) (ha : a.kind = .Car)
    (hwl : lot.waitlist = [a, b]) (now : Int) :
    lot.removeVehicle 1 now
      = some ({ lot with
                slots := lot.slots.set 0 { s0 with isOccupied := true, vehicle := some a }
                waitlist := [b] },
          [Msg.line (w.getType ++ " " ++ w.vehicleNumber ++ " left slot "
             ++ toString s0.slotNumber),
           Msg.feeLine (w.setExitTime now).calculateParkingFee,
           Msg.line ("Car " ++ a.vehicleNumber ++ " parked in slot "
             ++ toString s0.slotNumber)]) := by
  have hlen := hwf.2.2.2.1
  have htot := hwf.2.2.1
  have hb := hwf.2.1
  obtain ⟨slots, tot, aC, aB, wl⟩ := lot
  simp only at hone hwl hs0 hlen htot hb
  subst hone hwl
  cases slots with
  | nil => simp [slotAt] at hs0
  | cons s rest =>
    simp [slotAt] at hs0
    subst hs0
    have ht : (1 : Int) ≤ tot := by omega
    have hty : a.getType = "Car" := (getType_eq_car a).2 ha
    simp [ParkingLot.removeVehicle, ht, slotAt, ParkingSlot.removeVehicle, hocc, hveh,
      ParkingLot.handleWaitlist, ParkingLot.parkVehicle, hty, parkLoop,
      ParkingSlot.isSlotOccupied, ParkingSlot.parkVehicle, Vehicle.setExitTime,
      Vehicle.getType, Vehicle.getVehicleNumber, ha]

theorem removeVehicle_promotes_waiting_car_witness :
    (lot11 (some carC1) none [carA, bikeB]).WF ∧
    (lot11 (some carC1) none [carA, bikeB]).removeVehicle 1 3600
      = some ({ lot11 (some carC1) none [carA, bikeB] with
                slots := (lot11 (some carC1) none [carA, bikeB]).slots.set 0
                  { kind := .CarSlot, slotNumber := 1, isOccupied := true, vehicle := some carA }
                waitlist := [bikeB] },
          [Msg.line (carC1.getType ++ " " ++ carC1.vehicleNumber ++ " left slot "
             ++ toString (1 : Int)),
           Msg.feeLine (carC1.setExitTime 3600).calculateParkingFee,
           Msg.line ("Car " ++ carA.vehicleNumber ++ " parked in slot "
             ++ toString (1 : Int))]) :=
  ⟨by decide,
    removeVehicle_promotes_waiting_car (lot11 (some carC1) none [carA, bikeB]) (by decide) rfl
      { kind := .CarSlot, slotNumber := 1, isOccupied := true, vehicle := some carC1 } carC1
      (by decide) rfl rfl carA bikeB rfl rfl 3600⟩

/-- C9: in a well-formed lot, `removeVehicle(n)` with `1 ≤ n ≤ totalSlots`
succeeds whether or not slot `n` is occupied; its output is that of releasing
the slot followed by that of one promotion attempt. With an empty waitlist the
result is the lot with the slot released and the waitlist still empty. With
waitlist `w :: rest` the result is that of one call `parkVehicle(w)` on the
released lot with waitlist `rest`, and the waitlist afterwards is `rest` or
`rest ++ [w]`. -/
theorem removeVehicle_single_promotion (lot : ParkingLot) (hwf : lot.WF) (n now : Int)
    (h1 : 1 ≤ n) (h2 : n ≤ lot.totalSlots) :
    ∃ s, slotAt lot.slots (n - 1) = some s ∧
    ∃ lot1 out, lot.removeVehicle n now = some (lot1, (s.removeVehicle now).2 ++ out) ∧
      (lot.waitlist = [] →
        lot1 = { lot with slots := lot.slots.set (n - 1).toNat (s.removeVehicle now).1 } ∧
        out = []) ∧
      (∀ w rest, lot.waitlist = w :: rest →
        ParkingLot.parkVehicle
          { lot with slots := lot.slots.set (n - 1).toNat (s.removeVehicle now).1, waitlist := rest } w
          = some (lot1, out) ∧
        (lot1.waitlist = rest ∨ lot1.waitlist = rest ++ [w])) := by
  obtain ⟨hlt, hat⟩ := slotAt_valid lot hwf n (by omega) h2
  obtain ⟨_, heq⟩ := removeVehicle_valid lot hwf n now (by omega) h2
  refine ⟨lot.slots[(n - 1).toNat], hat, ?_⟩
  rw [heq]
  cases hw : lot.waitlist with
  | nil =>
    refine ⟨_, [], ?_, fun _ => ⟨rfl, rfl⟩, ?_⟩
    · simp [ParkingLot.handleWaitlist, hw]
    · intro w rest h; exact absurd h (by simp)
  | cons w rest =>
    have hwf1 : ParkingLot.WF { lot with slots := lot.slots.set (n - 1).toNat (lot.slots[(n - 1).toNat].removeVehicle now).1, waitlist := rest } :=
      wf_set lot hwf _ hlt _ (slot_removeVehicle_slotNumber _ _) (slot_removeVehicle_kind _ _)
        (slot_removeVehicle_consistent _ _ (hwf.2.2.2.2 _ hlt).2.2) rest
    have hhw : ParkingLot.handleWaitlist { lot with slots := lot.slots.set (n - 1).toNat (lot.slots[(n - 1).toNat].removeVehicle now).1, waitlist := w :: rest }
        = ParkingLot.parkVehicle { lot with slots := lot.slots.set (n - 1).toNat (lot.slots[(n - 1).toNat].removeVehicle now).1, waitlist := rest } w := rfl
    rw [hhw]
    rcases parkVehicle_wf _ w hwf1 with ⟨_, hres⟩ | ⟨_, _, hres⟩ | ⟨k, hk, _, _, _, hres⟩
    · refine ⟨_, _, by rw [hres]; rfl, fun h => absurd h (by simp), ?_⟩
      intro w1 rest1 h
      simp only [List.cons.injEq] at h
      obtain ⟨rfl, rfl⟩ := h
      exact ⟨hres, Or.inr rfl⟩
    · refine ⟨_, _, by rw [hres]; rfl, fun h => absurd h (by simp), ?_⟩
      intro w1 rest1 h
      simp only [List.cons.injEq] at h
      obtain ⟨rfl, rfl⟩ := h
      exact ⟨hres, Or.inl rfl⟩
    · refine ⟨_, _, by rw [hres]; rfl, fun h => absurd h (by simp), ?_⟩
      intro w1 rest1 h
      simp only [List.cons.injEq] at h
      obtain ⟨rfl, rfl⟩ := h
      exact ⟨hres, Or.inl rfl⟩

theorem removeVehicle_single_promotion_witness :
    (lot11 none (some bikeB1) [carA, bikeB]).WF ∧
    ∃ s, slotAt (lot11 none (some bikeB1) [carA, bikeB]).slots (1 - 1) = some s ∧
    ∃ lot1 out, (lot11 none (some bikeB1) [carA, bikeB]).removeVehicle 1 5
        = some (lot1, (s.removeVehicle 5).2 ++ out) ∧
      ((lot11 none (some bikeB1) [carA, bikeB]).waitlist = [] →
        lot1 = { lot11 none (some bikeB1) [carA, bikeB] with slots := (lot11 none (some bikeB1) [carA, bikeB]).slots.set (1 - 1 : Int).toNat (s.removeVehicle 5).1 } ∧
        out = []) ∧
      (∀ w rest, (lot11 none (some bikeB1) [carA, bikeB]).waitlist = w :: rest →
        ParkingLot.parkVehicle
          { lot11 none (some bikeB1) [carA, bikeB] with slots := (lot11 none (some bikeB1) [carA, bikeB]).slots.set (1 - 1 : Int).toNat (s.removeVehicle 5).1, waitlist := rest } w
          = some (lot1, out) ∧
        (lot1.waitlist = rest ∨ lot1.waitlist = rest ++ [w])) :=
  ⟨by decide,
    removeVehicle_single_promotion (lot11 none (some bikeB1) [carA, bikeB]) (by decide) 1 5
      (by decide) (by decide)⟩

/-- C10: on a slot whose `isOccupied` flag is false, `ParkingSlot::removeVehicle`
returns the slot unchanged and prints the single line `No vehicle in slot N`
(no fee line); a second call right after it does the same again. -/
theorem slot_removeVehicle_unoccupied (s : ParkingSlot) (now now2 : Int)
    (h : s.isOccupied = false) :
    s.removeVehicle now = (s, [Msg.line ("No vehicle in slot " ++ toString s.slotNumber)]) ∧
    (s.removeVehicle now).1.removeVehicle now2
      = (s, [Msg.line ("No vehicle in slot " ++ toString s.slotNumber)]) := by
  have h1 : ∀ t : Int, s.removeVehicle t
      = (s, [Msg.line ("No vehicle in slot " ++ toString s.slotNumber)]) := by
    intro t; simp [ParkingSlot.removeVehicle, h]
  rw [h1 now, h1 now2]
  exact ⟨rfl, rfl⟩

theorem slot_removeVehicle_unoccupied_witness :
    (ParkingSlot.create .BikeSlot 2).isOccupied = false ∧
    (ParkingSlot.create .BikeSlot 2).removeVehicle 10
      = (ParkingSlot.create .BikeSlot 2,
          [Msg.line ("No vehicle in slot " ++ toString (ParkingSlot.create .BikeSlot 2).slotNumber)]) ∧
    ((ParkingSlot.create .BikeSlot 2).removeVehicle 10).1.removeVehicle 20
      = (ParkingSlot.create .BikeSlot 2,
          [Msg.line ("No vehicle in slot " ++ toString (ParkingSlot.create .BikeSlot 2).slotNumber)]) :=
  ⟨rfl, slot_removeVehicle_unoccupied (ParkingSlot.create .BikeSlot 2) 10 20 rfl⟩

/-- C11: in every lot reachable from the constructor by `parkVehicle` and
`removeVehicle` calls, every occupied slot points to a vehicle whose kind is the
one the slot is for: a `CarSlot` holds a car and a `BikeSlot` holds a bike. -/
theorem reachable_occupant_kind_matches (lot : ParkingLot) (h : Reachable lot) :
    ∀ s ∈ lot.slots, s.isOccupied = true →
      ∃ v, s.vehicle = some v ∧ s.kind = slotKindFor v.kind ∧
        (s.kind = .CarSlot → v.kind = .Car) ∧ (s.kind = .BikeSlot → v.kind = .Bike) := by
  intro s hs hocc
  obtain ⟨j, hj, hget⟩ := List.getElem_of_mem hs
  have hcons := ((reachable_inv lot h).1.2.2.2.2 j hj).2.2
  rw [hget, hocc] at hcons
  cases hv : s.vehicle with
  | none => rw [hv] at hcons; simp at hcons
  | some v =>
    have hk := reachable_kindInv lot h s hs v hv
    refine ⟨v, rfl, hk, ?_, ?_⟩
    · intro hc; rw [hc] at hk; cases hvk : v.kind <;> simp [hvk, slotKindFor] at hk ⊢
    · intro hc; rw [hc] at hk; cases hvk : v.kind <;> simp [hvk, slotKindFor] at hk ⊢


theorem reachable_occupant_kind_matches_witness :
    Reachable (lot11 (some carC1) none []) ∧
    ∀ s ∈ (lot11 (some carC1) none []).slots, s.isOccupied = true →
      ∃ v, s.vehicle = some v ∧ s.kind = slotKindFor v.kind ∧
        (s.kind = .CarSlot → v.kind = .Car) ∧ (s.kind = .BikeSlot → v.kind = .Bike) :=
  ⟨Reachable.park (lot11 none none []) carC1 _ [Msg.line "Car C1 parked in slot 1"]
      (Reachable.construct 1 1 _ (by decide)) (by decide),
    reachable_occupant_kind_matches (lot11 (some carC1) none [])
      (Reachable.park (lot11 none none []) carC1 _ [Msg.line "Car C1 parked in slot 1"]
        (Reachable.construct 1 1 _ (by decide)) (by decide))⟩

/-- C12 fails as stated: `2147483647` and `1` are non-negative `int` counts, but
their sum does not fit in an `int`, so the constructor does not build a lot with
`2147483648` slots. -/
theorem construct_sum_overflow_counterexample :
    (0 : Int) ≤ 2147483647 ∧ (0 : Int) ≤ 1 ∧
    ¬ ∃ lot, ParkingLot.construct 2147483647 1 = some lot := by
  refine ⟨by decide, by decide, ?_⟩
  rintro ⟨lot, h⟩
  have hn : ParkingLot.construct 2147483647 1 = none := by decide
  rw [hn] at h
  exact absurd h (by simp)

/-- C12, amended: for counts `c ≥ 0` and `b ≥ 0` with `c + b ≤ INT_MAX` the
constructor builds a lot with exactly `c + b` slots, all unoccupied, in which
the slot at position `i` has number `i + 1` and is a `CarSlot` for `i < c` and a
`BikeSlot` from `c` on; and in every well-formed lot each `parkVehicle` and
`removeVehicle` call returns and keeps the number of slots, each slot's number
and kind, and the members `totalSlots`, `availableCarSlots` and
`availableBikeSlots`. -/
theorem construct_layout_and_preservation (c b : Int) (hc : 0 ≤ c) (hb : 0 ≤ b)
    (hsum : c + b ≤ INT_MAX) :
    (∃ lot, ParkingLot.construct c b = some lot ∧
      (lot.slots.length : Int) = c + b ∧ lot.totalSlots = c + b ∧
      lot.availableCarSlots = c ∧ lot.availableBikeSlots = b ∧
      ∀ i (h : i < lot.slots.length),
        lot.slots[i] = { kind := if (i : Int) < c then SlotKind.CarSlot else SlotKind.BikeSlot,
                         slotNumber := (i : Int) + 1, isOccupied := false, vehicle := none }) ∧
    (∀ lot : ParkingLot, lot.WF →
      (∀ v, ∃ lot1 out, lot.parkVehicle v = some (lot1, out) ∧ lot.SameLayout lot1) ∧
      (∀ n now, ∃ lot1 out, lot.removeVehicle n now = some (lot1, out) ∧
        lot.SameLayout lot1)) := by
  constructor
  · obtain ⟨lot, h1, h2, h3, h4, h5, _, h7⟩ := construct_spec c b hc hb hsum
    exact ⟨lot, h1, h2, h3, h4, h5, h7⟩
  · intro lot hwf
    exact ⟨fun v => parkVehicle_layout lot v hwf, fun n now => removeVehicle_layout lot hwf n now⟩

theorem construct_layout_and_preservation_witness :
    ((0 : Int) ≤ 1 ∧ (0 : Int) ≤ 1 ∧ (1 : Int) + 1 ≤ INT_MAX) ∧
    (∃ lot, ParkingLot.construct 1 1 = some lot ∧
      (lot.slots.length : Int) = 1 + 1 ∧ lot.totalSlots = 1 + 1 ∧
      lot.availableCarSlots = 1 ∧ lot.availableBikeSlots = 1 ∧
      ∀ i (h : i < lot.slots.length),
        lot.slots[i] = { kind := if (i : Int) < 1 then SlotKind.CarSlot else SlotKind.BikeSlot,
                         slotNumber := (i : Int) + 1, isOccupied := false, vehicle := none }) ∧
    (∀ lot : ParkingLot, lot.WF →
      (∀ v, ∃ lot1 out, lot.parkVehicle v = some (lot1, out) ∧ lot.SameLayout lot1) ∧
      (∀ n now, ∃ lot1 out, lot.removeVehicle n now = some (lot1, out) ∧
        lot.SameLayout lot1)) :=
  ⟨by decide, construct_layout_and_preservation 1 1 (by decide) (by decide) (by decide)⟩


/-- C14: `ParkingSlot::parkVehicle(v)` on a slot in any state (flag set or not,
any previous vehicle pointer) reports no error: it prints only the `parked in
slot` line and leaves the slot occupied by `v`; a previous occupant is replaced
without any mention in the output. -/
theorem slot_parkVehicle_overwrites (kind : SlotKind) (n : Int) (flag : Bool)
    (previous : Option Vehicle) (v : Vehicle) :
    ParkingSlot.parkVehicle
        { kind := kind, slotNumber := n, isOccupied := flag, vehicle := previous } v
      = ({ kind := kind, slotNumber := n, isOccupied := true, vehicle := some v },
         [Msg.line (v.getType ++ " " ++ v.vehicleNumber ++ " parked in slot " ++ toString n)]) ∧
    (ParkingSlot.parkVehicle
        { kind := kind, slotNumber := n, isOccupied := flag, vehicle := previous } v).1.isSlotOccupied
      = true := by
  exact ⟨rfl, rfl⟩

/-- C15: in a well-formed lot, `parkVehicle(v)` and `handleWaitlist` (which
passes the waitlist head to `parkVehicle`) return, invoke
`ParkingSlot::parkVehicle` at most once, only on a slot that is unoccupied and
whose index lies in `[0, totalSlots)`, and leave every occupied slot exactly as
it was: no parked occupant is overwritten. -/
theorem parkVehicle_never_overwrites (lot : ParkingLot) (hwf : lot.WF) (v : Vehicle) :
    (∃ lot1 out, lot.parkVehicle v = some (lot1, out) ∧ lot.ParkedInFreeSlot v lot1 out ∧
      ∀ i (h : i < lot.slots.length), lot.slots[i].isOccupied = true →
        lot1.slots[i]? = some lot.slots[i]) ∧
    (∃ lot1 out, lot.handleWaitlist = some (lot1, out) ∧
      (lot.waitlist = [] → lot1 = lot ∧ out = []) ∧
      (∀ w rest, lot.waitlist = w :: rest → lot.ParkedInFreeSlot w lot1 out) ∧
      ∀ i (h : i < lot.slots.length), lot.slots[i].isOccupied = true →
        lot1.slots[i]? = some lot.slots[i]) := by
  refine ⟨parkVehicle_free_slot lot v hwf, ?_⟩
  cases hw : lot.waitlist with
  | nil =>
    refine ⟨lot, [], by simp [ParkingLot.handleWaitlist, hw], fun _ => ⟨rfl, rfl⟩, ?_,
      fun i h _ => List.getElem?_eq_getElem h⟩
    intro w rest h; exact absurd h (by simp)
  | cons w rest =>
    have hwf2 : ParkingLot.WF { lot with waitlist := rest } := hwf
    obtain ⟨lot1, out, hp, hfree, hkeep⟩ := parkVehicle_free_slot _ w hwf2
    refine ⟨lot1, out, by simp only [ParkingLot.handleWaitlist, hw]; exact hp,
      fun h => absurd h (by simp), ?_, hkeep⟩
    intro w1 rest1 h
    simp only [List.cons.injEq] at h
    obtain ⟨rfl, rfl⟩ := h
    exact hfree


theorem parkVehicle_never_overwrites_witness :
    (lot11 (some carC1) none [bikeB]).WF ∧
    (∃ lot1 out, (lot11 (some carC1) none [bikeB]).parkVehicle carC2 = some (lot1, out) ∧
      (lot11 (some carC1) none [bikeB]).ParkedInFreeSlot carC2 lot1 out ∧
      ∀ i (h : i < (lot11 (some carC1) none [bikeB]).slots.length),
        (lot11 (some carC1) none [bikeB]).slots[i].isOccupied = true →
        lot1.slots[i]? = some (lot11 (some carC1) none [bikeB]).slots[i]) ∧
    (∃ lot1 out, (lot11 (some carC1) none [bikeB]).handleWaitlist = some (lot1, out) ∧
      ((lot11 (some carC1) none [bikeB]).waitlist = [] →
        lot1 = lot11 (some carC1) none [bikeB] ∧ out = []) ∧
      (∀ w rest, (lot11 (some carC1) none [bikeB]).waitlist = w :: rest →
        (lot11 (some carC1) none [bikeB]).ParkedInFreeSlot w lot1 out) ∧
      ∀ i (h : i < (lot11 (some carC1) none [bikeB]).slots.length),
        (lot11 (some carC1) none [bikeB]).slots[i].isOccupied = true →
        lot1.slots[i]? = some (lot11 (some carC1) none [bikeB]).slots[i]) :=
  ⟨by decide, parkVehicle_never_overwrites (lot11 (some carC1) none [bikeB]) (by decide) carC2⟩

/-- C16: in every lot reachable from the constructor, each waitlisted vehicle
is of a kind for which the lot has zero slots (the count is 0 and no slot of
the array is of that kind); so `handleWaitlist` leaves the slots as they are and
only moves the head of the waitlist to its tail. -/
theorem reachable_waitlist_kind_has_no_slot (lot : ParkingLot) (h : Reachable lot) :
    (∀ w ∈ lot.waitlist, lot.slotCount w.kind = 0 ∧
      ∀ s ∈ lot.slots, s.kind ≠ slotKindFor w.kind) ∧
    lot.handleWaitlist
      = some ({ lot with waitlist := match lot.waitlist with
                                     | [] => []
                                     | w :: rest => rest ++ [w] },
              match lot.waitlist with
              | [] => []
              | w :: _ => [Msg.line ("No available slot for " ++ w.getType
                  ++ ". Adding to waitlist.")]) := by
  obtain ⟨hwf, hinv⟩ := reachable_inv lot h
  constructor
  · intro w hw
    refine ⟨hinv w hw, ?_⟩
    intro s hs hkind
    obtain ⟨j, hj, hget⟩ := List.getElem_of_mem hs
    have := wf_slotCount_pos lot hwf w.kind j hj (by rw [hget]; exact hkind)
    have := hinv w hw
    omega
  · rcases handleWaitlist_inv lot hwf hinv with ⟨hw, hres⟩ | ⟨w, rest, hw, hres⟩
    · rw [hres, hw]
      have : lot = { lot with waitlist := [] } := by rw [← hw]
      simp only [Option.some.injEq, Prod.mk.injEq, and_true]
      exact this
    · rw [hres, hw]


theorem reachable_waitlist_kind_has_no_slot_witness :
    Reachable (lot01 none [carA]) ∧
    (∀ w ∈ (lot01 none [carA]).waitlist, (lot01 none [carA]).slotCount w.kind = 0 ∧
      ∀ s ∈ (lot01 none [carA]).slots, s.kind ≠ slotKindFor w.kind) ∧
    (lot01 none [carA]).handleWaitlist
      = some ({ lot01 none [carA] with waitlist := match (lot01 none [carA]).waitlist with
                                     | [] => []
                                     | w :: rest => rest ++ [w] },
              match (lot01 none [carA]).waitlist with
              | [] => []
              | w :: _ => [Msg.line ("No available slot for " ++ w.getType
                  ++ ". Adding to waitlist.")]) :=
  ⟨Reachable.park (lot01 none []) carA _
      [Msg.line "No available slot for Car. Adding to waitlist."]
      (Reachable.construct 0 1 _ (by decide)) (by decide),
    reachable_waitlist_kind_has_no_slot (lot01 none [carA])
      (Reachable.park (lot01 none []) carA _
        [Msg.line "No available slot for Car. Adding to waitlist."]
        (Reachable.construct 0 1 _ (by decide)) (by decide))⟩

/-- C17: in a well-formed lot `parkVehicle(v)` returns and changes at most one
thing: one unoccupied slot becomes occupied by `v` (waitlist and the other
slots as before), or `v` is appended to the waitlist (slots as before), or
nothing changes. No occupied slot is modified, and the old waitlist is kept in
order: the new one is the old one or the old one followed by `v`. -/
theorem parkVehicle_changes_at_most_one_thing (lot : ParkingLot) (hwf : lot.WF) (v : Vehicle) :
    ∃ lot1 out, lot.parkVehicle v = some (lot1, out) ∧
      ((∃ k, ∃ h : k < lot.slots.length, lot.slots[k].isOccupied = false ∧
          lot1 = { lot with slots := lot.slots.set k { lot.slots[k] with isOccupied := true, vehicle := some v } }) ∨
        lot1 = { lot with waitlist := lot.waitlist ++ [v] } ∨
        lot1 = lot) ∧
      (∀ i (h : i < lot.slots.length), lot.slots[i].isOccupied = true →
        lot1.slots[i]? = some lot.slots[i]) ∧
      (lot1.waitlist = lot.waitlist ∨ lot1.waitlist = lot.waitlist ++ [v]) := by
  obtain ⟨lot1, out, hp, _, hkeep⟩ := parkVehicle_free_slot lot v hwf
  refine ⟨lot1, out, hp, ?_, hkeep, ?_⟩
  · rcases parkVehicle_wf lot v hwf with ⟨_, hres⟩ | ⟨_, _, hres⟩ | ⟨k, hk, _, hfree, _, hres⟩
    · rw [hres] at hp; simp only [Option.some.injEq, Prod.mk.injEq] at hp
      exact Or.inr (Or.inl hp.1.symm)
    · rw [hres] at hp; simp only [Option.some.injEq, Prod.mk.injEq] at hp
      exact Or.inr (Or.inr hp.1.symm)
    · rw [hres] at hp; simp only [Option.some.injEq, Prod.mk.injEq] at hp
      exact Or.inl ⟨k, hk, hfree, hp.1.symm⟩
  · rcases parkVehicle_wf lot v hwf with ⟨_, hres⟩ | ⟨_, _, hres⟩ | ⟨k, hk, _, hfree, _, hres⟩
    · rw [hres] at hp; simp only [Option.some.injEq, Prod.mk.injEq] at hp
      rw [← hp.1]; exact Or.inr rfl
    · rw [hres] at hp; simp only [Option.some.injEq, Prod.mk.injEq] at hp
      rw [← hp.1]; exact Or.inl rfl
    · rw [hres] at hp; simp only [Option.some.injEq, Prod.mk.injEq] at hp
      rw [← hp.1]; exact Or.inl rfl


theorem parkVehicle_changes_at_most_one_thing_witness :
    lotTwoCars.WF ∧
    ∃ lot1 out, lotTwoCars.parkVehicle carC2 = some (lot1, out) ∧
      ((∃ k, ∃ h : k < lotTwoCars.slots.length, lotTwoCars.slots[k].isOccupied = false ∧
          lot1 = { lotTwoCars with slots := lotTwoCars.slots.set k { lotTwoCars.slots[k] with isOccupied := true, vehicle := some carC2 } }) ∨
        lot1 = { lotTwoCars with waitlist := lotTwoCars.waitlist ++ [carC2] } ∨
        lot1 = lotTwoCars) ∧
      (∀ i (h : i < lotTwoCars.slots.length), lotTwoCars.slots[i].isOccupied = true →
        lot1.slots[i]? = some lotTwoCars.slots[i]) ∧
      (lot1.waitlist = lotTwoCars.waitlist ∨ lot1.waitlist = lotTwoCars.waitlist ++ [carC2]) :=
  ⟨by decide, parkVehicle_changes_at_most_one_thing lotTwoCars (by decide) carC2⟩

/-- C18: in every slot state obtained from the slot constructor by
`ParkingSlot::parkVehicle` (with a vehicle object) and
`ParkingSlot::removeVehicle`, the flag `isOccupied` is true exactly when the
`vehicle` pointer is not null, so the test `isOccupied && vehicle` of
`removeVehicle` and `displaySlotInfo` has the value of `isSlotOccupied()`. -/
theorem slot_reachable_flag_iff_pointer (s : ParkingSlot) (h : SlotReachable s) :
    (s.isOccupied = true ↔ s.vehicle ≠ none) ∧
    (s.isOccupied && s.vehicle.isSome) = s.isSlotOccupied := by
  have hcons : s.isOccupied = s.vehicle.isSome := by
    induction h with
    | create kind n => rfl
    | park s v _ _ => rfl
    | remove s now _ ih => exact slot_removeVehicle_consistent s now ih
  obtain ⟨k, n, o, ve⟩ := s
  cases o <;> cases ve <;> simp_all [ParkingSlot.isSlotOccupied]


theorem slot_reachable_flag_iff_pointer_witness :
    SlotReachable ((ParkingSlot.create .CarSlot 1).parkVehicle carC1).1 ∧
    ((((ParkingSlot.create .CarSlot 1).parkVehicle carC1).1.isOccupied = true ↔
        ((ParkingSlot.create .CarSlot 1).parkVehicle carC1).1.vehicle ≠ none) ∧
      (((ParkingSlot.create .CarSlot 1).parkVehicle carC1).1.isOccupied &&
          ((ParkingSlot.create .CarSlot 1).parkVehicle carC1).1.vehicle.isSome)
        = ((ParkingSlot.create .CarSlot 1).parkVehicle carC1).1.isSlotOccupied) :=
  ⟨SlotReachable.park _ carC1 (SlotReachable.create .CarSlot 1),
    slot_reachable_flag_iff_pointer ((ParkingSlot.create .CarSlot 1).parkVehicle carC1).1
      (SlotReachable.park _ carC1 (SlotReachable.create .CarSlot 1))⟩

/-- C19 fails as stated: for a car with entry time 0 the exit times `2 ^ 53` and
`2 ^ 53 + 1` give the same `difftime` double and so the same fee: the fee is not
strictly increasing in the exit time. -/
theorem fee_not_strictly_increasing :
    IsTimeT (carC1.setExitTime (2 ^ 53)).exitTime ∧
    IsTimeT (carC1.setExitTime (2 ^ 53 + 1)).exitTime ∧
    (carC1.setExitTime (2 ^ 53)).entryTime ≤ (carC1.setExitTime (2 ^ 53)).exitTime ∧
    (carC1.setExitTime (2 ^ 53)).exitTime < (carC1.setExitTime (2 ^ 53 + 1)).exitTime ∧
    ¬ (Vehicle.calculateParkingFee (carC1.setExitTime (2 ^ 53))
        < Vehicle.calculateParkingFee (carC1.setExitTime (2 ^ 53 + 1))) := by
  refine ⟨by decide, by decide, by decide, by decide, ?_⟩
  rw [calculateParkingFee_eq, calculateParkingFee_eq]
  have h1 : (((carC1.setExitTime (2 ^ 53)).exitTime - (carC1.setExitTime (2 ^ 53)).entryTime
      : Int) : ℚ) = (2 : ℚ) ^ (53 : ℕ) := by
    simp [Vehicle.setExitTime, carC1]; norm_num
  have h2 : (((carC1.setExitTime (2 ^ 53 + 1)).exitTime
      - (carC1.setExitTime (2 ^ 53 + 1)).entryTime : Int) : ℚ) = (2 : ℚ) ^ (53 : ℕ) + 1 := by
    simp [Vehicle.setExitTime, carC1]; norm_num
  have hk : (carC1.setExitTime (2 ^ 53 + 1)).kind = (carC1.setExitTime (2 ^ 53)).kind := rfl
  rw [h1, h2, roundDouble_two_pow_53, roundDouble_two_pow_53_add_one, hk]
  exact lt_irrefl _

/-- C19, amended: for a vehicle of either kind whose entry time `e` and exit time
`x` are 64-bit `time_t` values with `e ≤ x`, the fee computed in doubles is
non-negative, is 0 exactly when `x = e`, does not decrease when the exit time
grows, grows strictly as long as the later exit time is at most `2 ^ 48` seconds
after `e`, and the fee as a car is exactly twice the fee as a bike. -/
theorem fee_monotone_and_car_twice_bike (v : Vehicle) (_he : IsTimeT v.entryTime)
    (_hx : IsTimeT v.exitTime) (h : v.entryTime ≤ v.exitTime) :
    0 ≤ v.calculateParkingFee ∧
    (v.calculateParkingFee = 0 ↔ v.exitTime = v.entryTime) ∧
    (∀ x : Int, IsTimeT x → v.exitTime ≤ x →
      v.calculateParkingFee ≤ (v.setExitTime x).calculateParkingFee) ∧
    (∀ x : Int, v.exitTime < x → x - v.entryTime ≤ 2 ^ 48 →
      v.calculateParkingFee < (v.setExitTime x).calculateParkingFee) ∧
    Vehicle.calculateParkingFee { v with kind := .Car }
      = 2 * Vehicle.calculateParkingFee { v with kind := .Bike } := by
  have hd : (0 : ℚ) ≤ ((v.exitTime - v.entryTime : Int) : ℚ) := by
    have : 0 ≤ v.exitTime - v.entryTime := by omega
    exact_mod_cast this
  refine ⟨?_, ?_, ?_, ?_, ?_⟩
  · rw [calculateParkingFee_eq]
    exact fee_nonneg _ _ (rate_pos _) hd
  · rw [calculateParkingFee_eq, fee_eq_zero_iff _ _ (rate_pos _) hd]
    constructor
    · intro h1
      have : v.exitTime - v.entryTime = 0 := by exact_mod_cast h1
      omega
    · intro h1
      rw [h1]; simp
  · intro x _ hx
    rw [calculateParkingFee_eq, calculateParkingFee_eq]
    apply fee_mono _ _ _ (rate_pos _) hd
    have : v.exitTime - v.entryTime ≤ x - v.entryTime := by omega
    exact_mod_cast this
  · intro x hx hmax
    rw [calculateParkingFee_eq, calculateParkingFee_eq]
    apply fee_strict _ _ _ (rate_pos _) hd
    · have : v.exitTime - v.entryTime + 1 ≤ x - v.entryTime := by omega
      exact_mod_cast this
    · have : ((x - v.entryTime : Int) : ℚ) ≤ ((2 ^ 48 : Int) : ℚ) := by exact_mod_cast hmax
      simpa using this
  · rw [calculateParkingFee_eq, calculateParkingFee_eq]
    simp only [rate]
    rw [← roundDouble_two_mul]
    congr 1; ring

theorem fee_monotone_and_car_twice_bike_witness :
    (IsTimeT (carC1.setExitTime 3600).entryTime ∧ IsTimeT (carC1.setExitTime 3600).exitTime ∧
      (carC1.setExitTime 3600).entryTime ≤ (carC1.setExitTime 3600).exitTime) ∧
    (0 ≤ (carC1.setExitTime 3600).calculateParkingFee ∧
      ((carC1.setExitTime 3600).calculateParkingFee = 0 ↔
        (carC1.setExitTime 3600).exitTime = (carC1.setExitTime 3600).entryTime) ∧
      (∀ x : Int, IsTimeT x → (carC1.setExitTime 3600).exitTime ≤ x →
        (carC1.setExitTime 3600).calculateParkingFee
          ≤ ((carC1.setExitTime 3600).setExitTime x).calculateParkingFee) ∧
      (∀ x : Int, (carC1.setExitTime 3600).exitTime < x →
        x - (carC1.setExitTime 3600).entryTime ≤ 2 ^ 48 →
        (carC1.setExitTime 3600).calculateParkingFee
          < ((carC1.setExitTime 3600).setExitTime x).calculateParkingFee) ∧
      Vehicle.calculateParkingFee { carC1.setExitTime 3600 with kind := .Car }
        = 2 * Vehicle.calculateParkingFee { carC1.setExitTime 3600 with kind := .Bike }) :=
  ⟨by decide,
    fee_monotone_and_car_twice_bike (carC1.setExitTime 3600) (by decide) (by decide)
      (by decide)⟩

end Parking
